import Mathlib

/-!
Verification of the claude-code-proxy streaming translation core.

This file gives a shallow embedding, in Lean 4, of the Rust components of the
proxy that the claims under scrutiny are about:

* `src/streaming/parser.rs` — the incremental concatenated-JSON-array parser
  (`StreamingJsonParser::feed`, `skip_noise`, `find_object_boundary`);
* `src/streaming/sse.rs` — the SSE event generator state machine
  (`SSEEventGenerator::generate_events` and its `format_*` helpers);
* `src/transform/validation.rs` — `validate_claude_request`;
* `src/transform/request.rs` — `extract_parts`, `convert_system_prompt`,
  `transform_request_with_state`;
* `src/transform/tools.rs` — `transform_tools`, `has_function_calls`;
* `src/cache.rs` — `ToolSchemaCache::get_or_transform`;
* `src/models/claude.rs` — the `JsonSchema` data type and its custom
  `Serialize` implementation (field whitelist).

Modelling conventions:

* Rust byte buffers are `List Nat` (one `Nat` per byte).
* `serde_json::Value` is the inductive `Json` below; `serde_json::to_string`
  is `Json.render` (object fields render in list order, strings are escaped
  for the quote and backslash characters, which covers every value the
  modelled code paths construct).
* `serde_json::from_slice::<GeminiStreamChunk>` is kept abstract: theorems
  about the parser quantify over an arbitrary pure parsing function
  `List Nat → Option GeminiStreamChunk`, since serde is an external library
  whose behaviour is a pure function of the consumed bytes.
* Machine integers `u32`/`usize` are `Nat` (no modelled path overflows);
  the `i32` brace-depth counter of `find_object_boundary` is `Int`;
  `f32`/`f64` are `Rat` (only order comparisons are performed on them).
* `uuid::Uuid::new_v4()` is modelled by an explicit supply `idOf : Nat → String`
  together with a counter of ids consumed so far; theorems quantify over the
  supply.
* `Result<T, ProxyError>` is `Except String T` (the modelled code only ever
  constructs `ProxyError::InvalidClaudeRequest`/`TransformationError`, both of
  which carry a message string).
* The `DashMap`-based correlation store is read by the transformer only
  through `get_function_name`, so for the transformer it is modelled as a
  lookup function `String → Option String`; the SSE generator only writes to
  it, which is modelled as the list `registered` of performed registrations.
-/

/-- Model of `serde_json::Value`. -/
inductive Json where
  | null : Json
  | bool (b : Bool) : Json
  | num (q : Rat) : Json
  | str (s : String) : Json
  | arr (elems : List Json) : Json
  | obj (fields : List (String × Json)) : Json

/-- Escape a character list for inclusion in rendered JSON (quote and
backslash, which covers the strings the modelled code paths construct). -/
def Json.escapeList : List Char → List Char
  | [] => []
  | c :: rest =>
    if c = '\\' then '\\' :: '\\' :: Json.escapeList rest
    else if c = '"' then '\\' :: '"' :: Json.escapeList rest
    else c :: Json.escapeList rest

/-- Escape a string for inclusion in rendered JSON. -/
def Json.escapeString (s : String) : String :=
  String.mk (Json.escapeList s.data)

/-- Model of Rust `text.trim().is_empty()`: true iff every character is
whitespace.  (Both sides trim exactly the whitespace characters; the model
uses `Char.isWhitespace`, which covers the ASCII whitespace the code paths
see.) -/
def trim_is_empty (t : String) : Bool :=
  t.data.all fun c => c.isWhitespace

mutual

/-- Model of `serde_json::to_string` (compact rendering). -/
def Json.render : Json → String
  | .null => "null"
  | .bool b => if b then "true" else "false"
  | .num q => if q.den = 1 then toString q.num else toString q
  | .str s => "\"" ++ Json.escapeString s ++ "\""
  | .arr elems => "[" ++ Json.renderList elems ++ "]"
  | .obj fields => "\x7b" ++ Json.renderFields fields ++ "\x7d"

def Json.renderList : List Json → String
  | [] => ""
  | [x] => Json.render x
  | x :: y :: rest => Json.render x ++ "," ++ Json.renderList (y :: rest)

def Json.renderFields : List (String × Json) → String
  | [] => ""
  | [kv] => "\"" ++ Json.escapeString kv.1 ++ "\":" ++ Json.render kv.2
  | kv :: kv2 :: rest =>
      "\"" ++ Json.escapeString kv.1 ++ "\":" ++ Json.render kv.2 ++ ","
        ++ Json.renderFields (kv2 :: rest)

end

/-! ## The incremental streaming JSON parser (`src/streaming/parser.rs`)

The parser state is the byte buffer together with the `array_started` flag.
(The `tool_input_buffer` field of the Rust struct is not read or written by
`feed`/`extract_objects`/`skip_noise`/`find_object_boundary`, so it is not
part of this model.)

Byte values used below: `"` = 34, `,` = 44, `\` = 92, `[` = 91, `]` = 93,
`{` = 123, `}` = 125, space = 32, `\n` = 10, `\r` = 13, `\t` = 9. -/

/-- `StreamingJsonParser::skip_noise`: drop leading `[`, `,` and whitespace
bytes, setting `array_started` when a `[` is consumed. -/
def skip_noise : List Nat → Bool → List Nat × Bool
  | [], s => ([], s)
  | b :: rest, s =>
    if b = 91 then skip_noise rest true
    else if b = 44 ∨ b = 32 ∨ b = 10 ∨ b = 13 ∨ b = 9 then skip_noise rest s
    else (b :: rest, s)

/-- The scanning loop of `StreamingJsonParser::find_object_boundary`:
`depth` is the brace depth (an `i32` in Rust, hence `Int`), `instr`/`esc`
the in-string and escaped flags, `i` the current byte offset. -/
def find_boundary_loop : List Nat → Int → Bool → Bool → Nat → Option Nat
  | [], _, _, _, _ => none
  | b :: rest, depth, instr, esc, i =>
    if instr then
      if esc then find_boundary_loop rest depth instr false (i + 1)
      else if b = 92 then find_boundary_loop rest depth instr true (i + 1)
      else if b = 34 then find_boundary_loop rest depth false esc (i + 1)
      else find_boundary_loop rest depth instr esc (i + 1)
    else
      if b = 34 then find_boundary_loop rest depth true esc (i + 1)
      else if b = 123 then find_boundary_loop rest (depth + 1) instr esc (i + 1)
      else if b = 125 then
        (if depth - 1 = 0 then some (i + 1)
         else find_boundary_loop rest (depth - 1) instr esc (i + 1))
      else find_boundary_loop rest depth instr esc (i + 1)

/-- `StreamingJsonParser::find_object_boundary`. -/
def find_object_boundary (buffer : List Nat) : Option Nat :=
  find_boundary_loop buffer 0 false false 0

theorem skip_noise_fst_length (l : List Nat) (s : Bool) :
    (skip_noise l s).1.length ≤ l.length := by
  induction l generalizing s with
  | nil => simp [skip_noise]
  | cons b rest ih =>
    simp only [skip_noise]
    split
    · exact Nat.le_trans (ih true) (Nat.le_succ _)
    · split
      · exact Nat.le_trans (ih s) (Nat.le_succ _)
      · simp

theorem find_boundary_loop_pos (l : List Nat) (depth : Int) (instr esc : Bool)
    (i n : Nat) (h : find_boundary_loop l depth instr esc i = some n) : i < n := by
  induction l generalizing depth instr esc i with
  | nil => simp [find_boundary_loop] at h
  | cons b rest ih =>
    simp only [find_boundary_loop] at h
    repeat' split at h
    all_goals first
      | (injection h with hn; omega)
      | (have hq := ih _ _ _ _ h; omega)

theorem find_boundary_loop_le (l : List Nat) (depth : Int) (instr esc : Bool)
    (i n : Nat) (h : find_boundary_loop l depth instr esc i = some n) :
    n ≤ i + l.length := by
  induction l generalizing depth instr esc i with
  | nil => simp [find_boundary_loop] at h
  | cons b rest ih =>
    simp only [find_boundary_loop] at h
    simp only [List.length_cons]
    repeat' split at h
    all_goals first
      | (injection h with hn; omega)
      | (have hq := ih _ _ _ _ h; omega)

set_option linter.unreachableTactic false in
set_option linter.unusedTactic false in
theorem find_boundary_loop_append (l c : List Nat) (depth : Int) (instr esc : Bool)
    (i n : Nat) (h : find_boundary_loop l depth instr esc i = some n) :
    find_boundary_loop (l ++ c) depth instr esc i = some n := by
  induction l generalizing depth instr esc i with
  | nil => simp [find_boundary_loop] at h
  | cons b rest ih =>
    simp only [List.cons_append]
    rw [find_boundary_loop] at h ⊢
    repeat' split at h
    all_goals first
      | exact h
      | exact ih _ _ _ _ h
      | (simp only [*, Bool.not_eq_true, Bool.false_eq_true, Bool.true_eq_false,
            ite_true, ite_false, if_true, if_false, reduceIte] at h ⊢ <;>
         first
          | exact ih _ _ _ _ h
          | exact h
          | (norm_num
             <;> first
              | exact ih _ _ _ _ h
              | exact h))

theorem find_object_boundary_pos (l : List Nat) (n : Nat)
    (h : find_object_boundary l = some n) : 0 < n :=
  find_boundary_loop_pos l 0 false false 0 n h

theorem find_object_boundary_le (l : List Nat) (n : Nat)
    (h : find_object_boundary l = some n) : n ≤ l.length := by
  have := find_boundary_loop_le l 0 false false 0 n h
  omega

theorem find_object_boundary_append (l c : List Nat) (n : Nat)
    (h : find_object_boundary l = some n) :
    find_object_boundary (l ++ c) = some n :=
  find_boundary_loop_append l c 0 false false 0 n h

/-- A byte is "noise" when `skip_noise` consumes it. -/
def noise_byte (b : Nat) : Prop :=
  b = 91 ∨ b = 44 ∨ b = 32 ∨ b = 10 ∨ b = 13 ∨ b = 9

instance (b : Nat) : Decidable (noise_byte b) := by
  unfold noise_byte; infer_instance

theorem skip_noise_nil_append (l c : List Nat) (s s1 : Bool)
    (h : skip_noise l s = ([], s1)) :
    skip_noise (l ++ c) s = skip_noise c s1 := by
  induction l generalizing s with
  | nil =>
    simp only [skip_noise, Prod.mk.injEq] at h
    simp [h.2]
  | cons b rest ih =>
    simp only [skip_noise] at h
    simp only [List.cons_append, skip_noise]
    split at h
    next hb =>
      rw [if_pos hb]
      exact ih true h
    next hb =>
      split at h
      next hn =>
        rw [if_neg hb, if_pos hn]
        exact ih s h
      next hn =>
        exact absurd h (by simp)

theorem skip_noise_cons_append (l c : List Nat) (s s1 : Bool) (b : Nat)
    (rest : List Nat) (h : skip_noise l s = (b :: rest, s1)) :
    skip_noise (l ++ c) s = (b :: (rest ++ c), s1) := by
  induction l generalizing s with
  | nil => simp [skip_noise] at h
  | cons x xs ih =>
    simp only [skip_noise] at h
    simp only [List.cons_append, skip_noise]
    split at h
    next hb =>
      rw [if_pos hb]
      exact ih true h
    next hb =>
      split at h
      next hn =>
        rw [if_neg hb, if_pos hn]
        exact ih s h
      next hn =>
        injection h with h1 h2
        injection h1 with hx hrest
        subst hx; subst hrest; subst h2
        rw [if_neg hb, if_neg hn]
        simp

/-- The head of a non-empty `skip_noise` result is not a noise byte. -/
theorem skip_noise_head_not_noise (l : List Nat) (s s1 : Bool) (b : Nat)
    (rest : List Nat) (h : skip_noise l s = (b :: rest, s1)) : ¬ noise_byte b := by
  induction l generalizing s with
  | nil => simp [skip_noise] at h
  | cons x xs ih =>
    simp only [skip_noise] at h
    split at h
    next hb => exact ih true h
    next hb =>
      split at h
      next hn => exact ih s h
      next hn =>
        injection h with h1 h2
        injection h1 with hx hrest
        subst hx
        unfold noise_byte
        omega

/-- `skip_noise` is idempotent: skipping an already-skipped buffer is the
identity. -/
theorem skip_noise_self (l : List Nat) (s : Bool) :
    skip_noise (skip_noise l s).1 (skip_noise l s).2 = skip_noise l s := by
  rcases hsn : skip_noise l s with ⟨b1, s1⟩
  match b1 with
  | [] => simp [skip_noise]
  | b :: rest =>
    have hb := skip_noise_head_not_noise l s s1 b rest hsn
    unfold noise_byte at hb
    simp only [skip_noise]
    rw [if_neg (by omega), if_neg (by omega)]

mutual

/-- The loop body of `StreamingJsonParser::extract_objects`, applied to the
buffer after `skip_noise`.  Returns the extracted candidate object byte
segments, the residual buffer, and the `array_started` flag. -/
def extract_core : List Nat → Bool → List (List Nat) × List Nat × Bool
  | [], s1 => ([], [], s1)
  | b :: rest, s1 =>
    if b = 93 then extract_objects rest s1
    else
      match hb : find_object_boundary (b :: rest) with
      | some n =>
        let p := extract_objects ((b :: rest).drop n) s1
        ((b :: rest).take n :: p.1, p.2)
      | none => ([], b :: rest, s1)
termination_by l _ => (l.length, 0)
decreasing_by
  · simp only [Prod.lex_def, List.length_cons]
    omega
  · simp only [Prod.lex_def, List.length_cons, List.length_drop]
    have hpos := find_object_boundary_pos _ _ hb
    omega

/-- `StreamingJsonParser::extract_objects` (the candidate-object segments are
returned as raw bytes; parsing each segment with serde — and skipping the
segments that fail to parse — is applied on top, see `feed_parsed`). -/
def extract_objects (l : List Nat) (s : Bool) : List (List Nat) × List Nat × Bool :=
  extract_core (skip_noise l s).1 (skip_noise l s).2
termination_by (l.length, 1)
decreasing_by
  simp only [Prod.lex_def]
  have hle := skip_noise_fst_length l s
  omega

end

theorem skip_noise_stop (b : Nat) (xs : List Nat) (s : Bool) (h : ¬ noise_byte b) :
    skip_noise (b :: xs) s = (b :: xs, s) := by
  unfold noise_byte at h
  simp only [skip_noise]
  rw [if_neg (by omega), if_neg (by omega)]

theorem extract_objects_eq_core (l : List Nat) (s : Bool) :
    extract_objects l s = extract_core (skip_noise l s).1 (skip_noise l s).2 := by
  rw [extract_objects]

theorem extract_objects_congr (l l2 : List Nat) (s s2 : Bool)
    (h : skip_noise l s = skip_noise l2 s2) :
    extract_objects l s = extract_objects l2 s2 := by
  rw [extract_objects_eq_core, extract_objects_eq_core, h]

theorem extract_core_nil (s1 : Bool) : extract_core [] s1 = ([], [], s1) := by
  rw [extract_core]

theorem extract_core_bracket (rest : List Nat) (s1 : Bool) :
    extract_core (93 :: rest) s1 = extract_objects rest s1 := by
  rw [extract_core]
  simp

theorem extract_core_found (b : Nat) (rest : List Nat) (s1 : Bool) (n : Nat)
    (hb : ¬ b = 93) (h : find_object_boundary (b :: rest) = some n) :
    extract_core (b :: rest) s1 =
      ((b :: rest).take n :: (extract_objects ((b :: rest).drop n) s1).1,
       (extract_objects ((b :: rest).drop n) s1).2) := by
  rw [extract_core]
  rw [if_neg hb]
  split
  next n2 heq =>
    rw [h] at heq
    injection heq with hn
    subst hn
    rfl
  next heq =>
    rw [h] at heq
    exact absurd heq (by simp)

theorem extract_core_not_found (b : Nat) (rest : List Nat) (s1 : Bool)
    (hb : ¬ b = 93) (h : find_object_boundary (b :: rest) = none) :
    extract_core (b :: rest) s1 = ([], b :: rest, s1) := by
  rw [extract_core]
  rw [if_neg hb]
  split
  next n2 heq =>
    rw [h] at heq
    exact absurd heq (by simp)
  next heq => rfl

/-- Key compositionality property of `extract_objects`: extracting from
`l ++ c` extracts first everything that `l` alone yields, then continues on
the retained residual extended with `c`. -/
theorem extract_objects_append (m : Nat) : ∀ (l : List Nat) (s : Bool) (c : List Nat),
    l.length ≤ m →
    extract_objects (l ++ c) s =
      ((extract_objects l s).1
          ++ (extract_objects ((extract_objects l s).2.1 ++ c) (extract_objects l s).2.2).1,
       (extract_objects ((extract_objects l s).2.1 ++ c) (extract_objects l s).2.2).2) := by
  induction m with
  | zero =>
    intro l s c hlen
    have hl : l = [] := List.length_eq_zero.mp (Nat.le_zero.mp hlen)
    subst hl
    have h0 : skip_noise ([] : List Nat) s = ([], s) := by simp [skip_noise]
    rw [extract_objects_eq_core ([] : List Nat) s, h0]
    simp only [extract_core_nil, List.nil_append]
  | succ m ih =>
    intro l s c hlen
    rcases hsn : skip_noise l s with ⟨b1, s1⟩
    match hb1 : b1 with
    | [] =>
      have hlc : skip_noise (l ++ c) s = skip_noise c s1 :=
        skip_noise_nil_append l c s s1 (by rw [hsn])
      rw [extract_objects_eq_core (l ++ c) s, hlc,
          extract_objects_eq_core l s, hsn]
      simp only [extract_core_nil, List.nil_append]
      rw [← extract_objects_eq_core c s1]
    | b :: rest =>
      have hlen2 : rest.length + 1 ≤ m + 1 := by
        have h1 := skip_noise_fst_length l s
        rw [hsn] at h1
        simp only [List.length_cons] at h1
        omega
      have hlc : skip_noise (l ++ c) s = (b :: (rest ++ c), s1) :=
        skip_noise_cons_append l c s s1 b rest (by rw [hsn])
      have hnn : ¬ noise_byte b :=
        skip_noise_head_not_noise l s s1 b rest (by rw [hsn])
      rw [extract_objects_eq_core (l ++ c) s, hlc,
          extract_objects_eq_core l s, hsn]
      by_cases hb : b = 93
      · subst hb
        rw [extract_core_bracket, extract_core_bracket]
        exact ih rest s1 c (by omega)
      · match hfb : find_object_boundary (b :: rest) with
        | some n =>
          have hle : n ≤ (b :: rest).length := find_object_boundary_le _ _ hfb
          have hpos : 0 < n := find_object_boundary_pos _ _ hfb
          have hfb2 : find_object_boundary (b :: (rest ++ c)) = some n := by
            have := find_object_boundary_append (b :: rest) c n hfb
            simpa using this
          rw [extract_core_found b (rest ++ c) s1 n hb hfb2,
              extract_core_found b rest s1 n hb hfb]
          have htake : (b :: (rest ++ c)).take n = (b :: rest).take n := by
            rw [show (b :: (rest ++ c)) = (b :: rest) ++ c by simp]
            exact List.take_append_of_le_length hle
          have hdrop : (b :: (rest ++ c)).drop n = (b :: rest).drop n ++ c := by
            rw [show (b :: (rest ++ c)) = (b :: rest) ++ c by simp]
            exact List.drop_append_of_le_length hle
          rw [htake, hdrop]
          have hlen3 : ((b :: rest).drop n).length ≤ m := by
            simp only [List.length_drop, List.length_cons]
            omega
          rw [ih ((b :: rest).drop n) s1 c hlen3]
          simp
        | none =>
          rw [extract_core_not_found b rest s1 hb hfb]
          simp only [List.nil_append]
          rw [extract_objects_eq_core ((b :: rest) ++ c) s1, List.cons_append,
              skip_noise_stop b (rest ++ c) s1 hnn]

/-! ## Gemini wire model (`src/models/gemini.rs`) -/

/-- `FunctionCall` (model output). -/
structure FunctionCall where
  name : String
  args : Json

/-- `FunctionResponse` (function execution result sent back to the model). -/
structure FunctionResponse where
  name : String
  response : Json

/-- `GeminiPart` (untagged in serde; the variants mirror the Rust enum). -/
inductive GeminiPart where
  | text (text : String)
  | textWithThought (text : String) (thought_signature : String)
  | inlineData (mime_type : String) (data : String)
  | functionCallWithThought (function_call : FunctionCall) (thought_signature : String)
  | functionCall (function_call : FunctionCall)
  | functionResponse (function_response : FunctionResponse)

/-- `GeminiContent`. -/
structure GeminiContent where
  role : Option String
  parts : List GeminiPart

/-- `SafetyRating`. -/
structure SafetyRating where
  category : String
  probability : String

/-- `Candidate`. -/
structure Candidate where
  content : Option GeminiContent
  finish_reason : Option String
  safety_ratings : Option (List SafetyRating)
  index : Option Nat

/-- `UsageMetadata`. -/
structure UsageMetadata where
  prompt_token_count : Option Nat
  candidates_token_count : Option Nat
  total_token_count : Option Nat

/-- `PromptFeedback`. -/
structure PromptFeedback where
  block_reason : Option String
  safety_ratings : Option (List SafetyRating)

/-- `GeminiStreamChunk`. -/
structure GeminiStreamChunk where
  candidates : List Candidate
  usage_metadata : Option UsageMetadata
  prompt_feedback : Option PromptFeedback

/-! ## Parser state and `feed` (`src/streaming/parser.rs`) -/

/-- `StreamingJsonParser` state: the byte buffer and the `array_started`
flag.  (`tool_input_buffer` is untouched by `feed` and therefore omitted.) -/
structure StreamingJsonParser where
  buffer : List Nat
  array_started : Bool

/-- `StreamingJsonParser::new()`. -/
def StreamingJsonParser.new : StreamingJsonParser :=
  { buffer := [], array_started := false }

/-- `StreamingJsonParser::feed`, at the level of raw candidate-object byte
segments: append the chunk to the buffer and run `extract_objects`. -/
def feed (p : StreamingJsonParser) (chunk : List Nat) :
    StreamingJsonParser × List (List Nat) :=
  let r := extract_objects (p.buffer ++ chunk) p.array_started
  ({ buffer := r.2.1, array_started := r.2.2 }, r.1)

/-- `StreamingJsonParser::feed` composed with serde parsing of each candidate
object: objects that fail to parse are skipped (`Err` branch of the
`serde_json::from_slice` match), the stream continues. -/
def feed_parsed (parse : List Nat → Option GeminiStreamChunk)
    (p : StreamingJsonParser) (chunk : List Nat) :
    StreamingJsonParser × List GeminiStreamChunk :=
  ((feed p chunk).1, (feed p chunk).2.filterMap parse)

/-- Feed a sequence of chunks one call at a time, concatenating the returned
segment lists in order. -/
def feed_all (p : StreamingJsonParser) (chunks : List (List Nat)) :
    StreamingJsonParser × List (List Nat) :=
  chunks.foldl (fun acc c => ((feed acc.1 c).1, acc.2 ++ (feed acc.1 c).2)) (p, [])

/-- `feed_all` composed with serde parsing of each candidate object. -/
def feed_all_parsed (parse : List Nat → Option GeminiStreamChunk)
    (p : StreamingJsonParser) (chunks : List (List Nat)) :
    StreamingJsonParser × List GeminiStreamChunk :=
  ((feed_all p chunks).1, (feed_all p chunks).2.filterMap parse)

theorem feed_append (p : StreamingJsonParser) (c1 c2 : List Nat) :
    feed p (c1 ++ c2)
      = ((feed (feed p c1).1 c2).1, (feed p c1).2 ++ (feed (feed p c1).1 c2).2) := by
  unfold feed
  simp only []
  have h := extract_objects_append (p.buffer ++ c1).length (p.buffer ++ c1)
    p.array_started c2 (Nat.le_refl _)
  rw [← List.append_assoc]
  rw [h]

theorem feed_all_acc (chunks : List (List Nat)) :
    ∀ (p : StreamingJsonParser) (out : List (List Nat)),
    chunks.foldl (fun acc c => ((feed acc.1 c).1, acc.2 ++ (feed acc.1 c).2)) (p, out)
      = ((feed_all p chunks).1, out ++ (feed_all p chunks).2) := by
  induction chunks with
  | nil => intro p out; simp [feed_all]
  | cons c cs ih =>
    intro p out
    simp only [feed_all, List.foldl_cons]
    rw [ih (feed p c).1 (out ++ (feed p c).2), ih (feed p c).1 ([] ++ (feed p c).2)]
    simp

theorem feed_all_join_of_ne (chunks : List (List Nat)) (hne : chunks ≠ []) :
    ∀ (p : StreamingJsonParser), feed_all p chunks = feed p chunks.flatten := by
  induction chunks with
  | nil => exact absurd rfl hne
  | cons c cs ih =>
    intro p
    simp only [List.flatten_cons, feed_all, List.foldl_cons]
    rw [feed_all_acc cs (feed p c).1 ([] ++ (feed p c).2)]
    rw [show ([] : List (List Nat)) ++ (feed p c).2 = (feed p c).2 by simp]
    match cs with
    | [] =>
      simp only [feed_all, List.foldl_nil, List.flatten_nil, List.append_nil]
    | c2 :: cs2 =>
      rw [feed_append p c (c2 :: cs2).flatten]
      rw [← ih (by simp) (feed p c).1]

theorem feed_new_nil : feed StreamingJsonParser.new [] = (StreamingJsonParser.new, []) := by
  unfold feed StreamingJsonParser.new
  simp only [List.append_nil]
  rw [extract_objects_eq_core]
  simp [skip_noise, extract_core_nil]

/-- Feeding any partition of a byte string to a fresh parser, chunk by chunk,
is the same as feeding the whole string at once: same extracted segments in
the same order, same final parser state. -/
theorem feed_all_join_new (chunks : List (List Nat)) :
    feed_all StreamingJsonParser.new chunks
      = feed StreamingJsonParser.new chunks.flatten := by
  match chunks with
  | [] =>
    simp only [feed_all, List.foldl_nil, List.flatten_nil]
    rw [feed_new_nil]
  | c :: cs => exact feed_all_join_of_ne (c :: cs) (by simp) _

/-! ## SSE event generator (`src/streaming/sse.rs`)

Events are modelled structurally: each `format_*` helper of the Rust code
produces one SSE frame `event: <name>\ndata: <json>\n\n`; the constructors
below record the event name together with the data fields that the
corresponding `serde_json::json!` literal fills in.  The random
`msg_gemini_<uuid>` message id is carried by no claim and is omitted from
`message_start`; the random tool-use id is modelled through the id supply
`idOf` (see the module comment).  `format_tool_use_start` returns a single
string carrying two SSE frames (`content_block_start` then
`content_block_delta`); here they appear as two consecutive events, which is
exactly what reaches the wire. -/

inductive SSEEvent where
  | message_start (model : String) (input_tokens output_tokens : Nat)
  | content_block_start_text (index : Nat)
  | content_block_start_tool_use (index : Nat) (id : String) (name : String)
  | content_block_delta_text (index : Nat) (text : String)
  | content_block_delta_input_json (index : Nat) (fragment : String)
  | content_block_stop (index : Nat)
  | message_delta (stop_reason : String) (output_tokens : Nat)
  | message_stop
  | error_event (error_type : String) (message : String)
deriving DecidableEq

/-- `SSEEventGenerator` state.  `registered` records the
`ConversationState::register_tool_use` calls performed (tool_use_id,
function name, optional thought signature, args), in order; `used_ids`
counts how many tool-use uuids have been drawn from the supply. -/
structure SSEEventGenerator where
  header_sent : Bool
  input_tokens : Nat
  output_tokens : Nat
  model_name : String
  registered : List (String × String × Option String × Json)
  content_block_index : Nat
  used_ids : Nat

/-- `SSEEventGenerator::new`. -/
def SSEEventGenerator.new (model_name : String) : SSEEventGenerator :=
  { header_sent := false, input_tokens := 0, output_tokens := 0,
    model_name := model_name, registered := [], content_block_index := 0,
    used_ids := 0 }

/-- `format_message_start` followed by `format_content_block_start` — the
"header" pair pushed whenever `header_sent` flips to true. -/
def sse_header_events (g : SSEEventGenerator) : List SSEEvent :=
  [.message_start g.model_name g.input_tokens 1, .content_block_start_text 0]

/-- `transform::tools::has_function_calls`: any candidate whose content has a
`GeminiPart::FunctionCall` part (note: the `FunctionCallWithThought` variant
is *not* matched by this function). -/
def has_function_calls (chunk : GeminiStreamChunk) : Bool :=
  chunk.candidates.any fun c =>
    match c.content with
    | some content =>
      content.parts.any fun p =>
        match p with
        | .functionCall _ => true
        | _ => false
    | none => false

/-- `SSEEventGenerator::map_finish_reason`. -/
def map_finish_reason (gemini_reason : String) : String :=
  if gemini_reason = "STOP" then "end_turn"
  else if gemini_reason = "MAX_TOKENS" then "max_tokens"
  else if gemini_reason = "SAFETY" then "stop_sequence"
  else if gemini_reason = "RECITATION" then "stop_sequence"
  else if gemini_reason = "OTHER" then "end_turn"
  else "end_turn"

/-- `SSEEventGenerator::determine_stop_reason_with_context`. -/
def determine_stop_reason_with_context (chunk : GeminiStreamChunk)
    (finish_reason : String) : String :=
  if has_function_calls chunk then "tool_use"
  else
    let first_has_fc : Bool :=
      match chunk.candidates.head? with
      | some c =>
        match c.content with
        | some content =>
          content.parts.any fun p =>
            match p with
            | .functionCall _ => true
            | .functionCallWithThought _ _ => true
            | _ => false
        | none => false
      | none => false
    if first_has_fc then "tool_use"
    else map_finish_reason finish_reason

/-- `SSEEventGenerator::chunk_has_meaningful_content`. -/
def chunk_has_meaningful_content (chunk : GeminiStreamChunk) : Bool :=
  match chunk.candidates.head? with
  | some candidate =>
    match candidate.content with
    | some content =>
      content.parts.any fun p =>
        match p with
        | .text t => !trim_is_empty t
        | .textWithThought t _ => !trim_is_empty t
        | .functionCall _ => true
        | .functionCallWithThought _ _ => true
        | _ => false
    | none => false
  | none => false

/-- The shared body of the two function-call arms of `generate_events`:
`transform_function_call` (fresh `toolu_<uuid>` id and `ToolUse` block),
`ConversationState::register_tool_use`, `format_tool_use_start` (a
`content_block_start` with empty input at a freshly assigned index, then a
`content_block_delta(input_json_delta)` with the serialized args), then
`format_tool_use_stop` (a `content_block_stop` at
`content_block_index.saturating_sub(1)`, i.e. the just-assigned index). -/
def sse_emit_function_call (idOf : Nat → String) (g : SSEEventGenerator)
    (evs : List SSEEvent) (fc : FunctionCall) (sig : Option String) :
    SSEEventGenerator × List SSEEvent :=
  let id := "toolu_" ++ idOf g.used_ids
  let index := g.content_block_index
  let g2 := { g with
    content_block_index := g.content_block_index + 1,
    used_ids := g.used_ids + 1,
    registered := g.registered ++ [(id, fc.name, sig, fc.args)] }
  (g2,
    evs ++ [.content_block_start_tool_use index id fc.name,
            .content_block_delta_input_json index (Json.render fc.args),
            .content_block_stop (g2.content_block_index - 1)])

/-- One iteration of the `for part in &content.parts` loop of
`generate_events`. -/
def sse_process_part (idOf : Nat → String)
    (acc : SSEEventGenerator × List SSEEvent) (part : GeminiPart) :
    SSEEventGenerator × List SSEEvent :=
  let g := acc.1
  let evs := acc.2
  match part with
  | .text t =>
    if !trim_is_empty t then
      let hdr := if !g.header_sent then sse_header_events g else []
      let g2 := if !g.header_sent then { g with header_sent := true } else g
      (g2, evs ++ hdr ++ [.content_block_delta_text 0 t])
    else (g, evs)
  | .textWithThought t _ =>
    if !trim_is_empty t then
      let hdr := if !g.header_sent then sse_header_events g else []
      let g2 := if !g.header_sent then { g with header_sent := true } else g
      (g2, evs ++ hdr ++ [.content_block_delta_text 0 t])
    else (g, evs)
  | .functionCallWithThought fc sig => sse_emit_function_call idOf g evs fc (some sig)
  | .functionCall fc => sse_emit_function_call idOf g evs fc none
  | .inlineData _ _ => (g, evs)
  | .functionResponse _ => (g, evs)

/-- The usage-metadata update at the top of `generate_events`. -/
def sse_usage_update (g : SSEEventGenerator) (chunk : GeminiStreamChunk) :
    SSEEventGenerator :=
  match chunk.usage_metadata with
  | some usage =>
    { g with
      input_tokens :=
        match usage.prompt_token_count with
        | some prompt_tokens => prompt_tokens
        | none => g.input_tokens,
      output_tokens :=
        match usage.candidates_token_count with
        | some output => output
        | none => g.output_tokens }
  | none => g

/-- The header block of `generate_events`: send `message_start` +
`content_block_start` on the first chunk with meaningful content. -/
def sse_first_header (g : SSEEventGenerator) (chunk : GeminiStreamChunk) :
    SSEEventGenerator × List SSEEvent :=
  if !g.header_sent && chunk_has_meaningful_content chunk then
    ({ g with header_sent := true }, sse_header_events g)
  else (g, [])

/-- The finish-reason block of `generate_events`: when the first candidate
carries a `finish_reason`, force the headers out if still unsent, emit the
`content_block_stop(0)` unless the chunk has (plain) function calls, then
`message_delta` with the contextual stop reason and `message_stop`. -/
def sse_finish (chunk : GeminiStreamChunk) (candidate : Candidate)
    (acc : SSEEventGenerator × List SSEEvent) : SSEEventGenerator × List SSEEvent :=
  match candidate.finish_reason with
  | none => acc
  | some finish_reason =>
    let stop_reason := determine_stop_reason_with_context chunk finish_reason
    let hdr2 := if !acc.1.header_sent then sse_header_events acc.1 else []
    let g4 := if !acc.1.header_sent then { acc.1 with header_sent := true } else acc.1
    let evs2 := acc.2 ++ hdr2
    let evs3 := if !has_function_calls chunk
      then evs2 ++ [.content_block_stop 0] else evs2
    (g4, evs3 ++ [.message_delta stop_reason g4.output_tokens, .message_stop])

/-- `SSEEventGenerator::generate_events`. -/
def generate_events (idOf : Nat → String) (g : SSEEventGenerator)
    (chunk : GeminiStreamChunk) : SSEEventGenerator × List SSEEvent :=
  let g1 := sse_usage_update g chunk
  let hp := sse_first_header g1 chunk
  match chunk.candidates.head? with
  | none => hp
  | some candidate =>
    let pp :=
      match candidate.content with
      | some content => content.parts.foldl (sse_process_part idOf) hp
      | none => hp
    sse_finish chunk candidate pp

/-- Feed a list of chunks through `generate_events` one call at a time,
concatenating the emitted events. -/
def generate_events_all (idOf : Nat → String) (g : SSEEventGenerator)
    (chunks : List GeminiStreamChunk) : SSEEventGenerator × List SSEEvent :=
  chunks.foldl
    (fun acc ch =>
      ((generate_events idOf acc.1 ch).1, acc.2 ++ (generate_events idOf acc.1 ch).2))
    (g, [])

/-! ## Claude-side data model (`src/models/claude.rs`) -/

/-- `JsonSchema` (recursive, hence an inductive with one constructor).
Field order matches the Rust struct: `schema_type` (serde-renamed to
`type`), `description`, `properties`, `required`, `enum_values` (renamed to
`enum`), `items`, `minimum`, `maximum`, `pattern`, and the
`#[serde(flatten, skip_serializing)]` catch-all `additional`. -/
inductive JsonSchema where
  | mk (schema_type : String) (description : Option String)
      (properties : Option (List (String × JsonSchema)))
      (required : Option (List String))
      (enum_values : Option (List Json))
      (items : Option JsonSchema)
      (minimum : Option Rat) (maximum : Option Rat)
      (pattern : Option String)
      (additional : List (String × Json))

/-- Replace the `additional` (flattened catch-all) field of a schema. -/
def JsonSchema.withAdditional : JsonSchema → List (String × Json) → JsonSchema
  | .mk t d p r e it mi ma pa _, extra => .mk t d p r e it mi ma pa extra

/-- `serialize_entry("description", ...)` / `serialize_entry("pattern", ...)`
for an optional string field: present fields contribute one map entry under
`name`, absent fields contribute nothing. -/
def seg_opt_str (name : String) : Option String → List (String × Json)
  | some x => [(name, Json.str x)]
  | none => []

/-- `serialize_entry` for an optional numeric field (`minimum`/`maximum`). -/
def seg_opt_num (name : String) : Option Rat → List (String × Json)
  | some x => [(name, Json.num x)]
  | none => []

/-- `serialize_entry("required", ...)`: the string list serializes as a JSON
array of strings. -/
def seg_required : Option (List String) → List (String × Json)
  | some req => [("required", Json.arr (req.map Json.str))]
  | none => []

/-- `serialize_entry("enum", ...)`: the enum values serialize verbatim. -/
def seg_enum : Option (List Json) → List (String × Json)
  | some enums => [("enum", Json.arr enums)]
  | none => []

mutual

/-- The custom `impl Serialize for JsonSchema`: a map holding `type` always,
then each present optional field under its wire name, in declaration order;
the `additional` field is never written.  Each `if let Some(...) =
... { map.serialize_entry(...) }` of the Rust impl is one `seg_*` call. -/
def serialize_json_schema : JsonSchema → Json
  | .mk schema_type description properties required enum_values items
      minimum maximum pattern _additional =>
    Json.obj
      ([("type", Json.str schema_type)]
        ++ seg_opt_str "description" description
        ++ seg_properties properties
        ++ seg_required required
        ++ seg_enum enum_values
        ++ seg_items items
        ++ seg_opt_num "minimum" minimum
        ++ seg_opt_num "maximum" maximum
        ++ seg_opt_str "pattern" pattern)

/-- `serialize_entry("properties", ...)`: the map of sub-schemas serializes
as an object of serialized sub-schemas. -/
def seg_properties : Option (List (String × JsonSchema)) → List (String × Json)
  | some props => [("properties", Json.obj (serialize_schema_props props))]
  | none => []

/-- `serialize_entry("items", ...)`: the sub-schema serializes recursively. -/
def seg_items : Option JsonSchema → List (String × Json)
  | some s => [("items", serialize_json_schema s)]
  | none => []

/-- Serialization of the `properties` map (each value is a sub-schema). -/
def serialize_schema_props : List (String × JsonSchema) → List (String × Json)
  | [] => []
  | (k, v) :: rest => (k, serialize_json_schema v) :: serialize_schema_props rest

end

mutual

/-- All object keys occurring anywhere in a `Json` value. -/
def json_keys : Json → List String
  | .null => []
  | .bool _ => []
  | .num _ => []
  | .str _ => []
  | .arr elems => json_keys_list elems
  | .obj fields => json_keys_fields fields

def json_keys_list : List Json → List String
  | [] => []
  | x :: xs => json_keys x ++ json_keys_list xs

def json_keys_fields : List (String × Json) → List String
  | [] => []
  | kv :: rest => kv.1 :: (json_keys kv.2 ++ json_keys_fields rest)

end

mutual

/-- All property names declared anywhere in a schema (they become the keys
of the serialized `properties` maps). -/
def schema_property_names : JsonSchema → List String
  | .mk _ _ properties _ _ items _ _ _ _ =>
    names_seg_props properties ++ names_seg_items items

def names_seg_props : Option (List (String × JsonSchema)) → List String
  | some props => schema_property_names_props props
  | none => []

def names_seg_items : Option JsonSchema → List String
  | some s => schema_property_names s
  | none => []

def schema_property_names_props : List (String × JsonSchema) → List String
  | [] => []
  | (k, v) :: rest => k :: (schema_property_names v ++ schema_property_names_props rest)

end

mutual

/-- All object keys occurring inside `enum` values anywhere in a schema
(enum values are serialized verbatim). -/
def schema_enum_keys : JsonSchema → List String
  | .mk _ _ properties _ enum_values items _ _ _ _ =>
    enum_seg_values enum_values ++ enum_seg_props properties ++ enum_seg_items items

def enum_seg_values : Option (List Json) → List String
  | some enums => json_keys_list enums
  | none => []

def enum_seg_props : Option (List (String × JsonSchema)) → List String
  | some props => schema_enum_keys_props props
  | none => []

def enum_seg_items : Option JsonSchema → List String
  | some s => schema_enum_keys s
  | none => []

def schema_enum_keys_props : List (String × JsonSchema) → List String
  | [] => []
  | (_, v) :: rest => schema_enum_keys v ++ schema_enum_keys_props rest

end

/-- The §4.3 whitelist of schema field names. -/
def schema_field_whitelist : List String :=
  ["type", "description", "properties", "required", "enum", "items",
   "minimum", "maximum", "pattern"]

/-- `ClaudeTool`. -/
structure ClaudeTool where
  name : String
  description : String
  input_schema : JsonSchema

/-! ## Tool-schema conversion and cache (`src/transform/tools.rs`,
`src/cache.rs`) -/

/-- `GeminiFunctionDeclaration` (`src/models/gemini.rs`). -/
structure GeminiFunctionDeclaration where
  name : String
  description : String
  parameters : JsonSchema

/-- `GeminiTool` (the `function_declarations` wrapper). -/
structure GeminiTool where
  function_declarations : List GeminiFunctionDeclaration

/-- The conversion performed by the slow path of
`ToolSchemaCache::get_or_transform` (structural copy,
`input_schema → parameters`). -/
def convert_tool (tool : ClaudeTool) : GeminiFunctionDeclaration :=
  { name := tool.name, description := tool.description,
    parameters := tool.input_schema }

/-- The `HashMap<String, GeminiFunctionDeclaration>` snapshot held by the
cache, modelled as an association list (first match wins on lookup; the
iteration order of the Rust `HashMap` is unspecified anyway). -/
def ToolSchemaCacheMap := List (String × GeminiFunctionDeclaration)

/-- `HashMap::get`. -/
def cache_lookup (cache : ToolSchemaCacheMap) (name : String) :
    Option GeminiFunctionDeclaration :=
  match cache with
  | [] => none
  | (k, v) :: rest => if k = name then some v else cache_lookup rest name

/-- `HashMap::insert` under the rcu clone-and-insert: the key is bound to
the new value (replacing any previous binding). -/
def cache_insert (cache : ToolSchemaCacheMap) (name : String)
    (decl : GeminiFunctionDeclaration) : ToolSchemaCacheMap :=
  (name, decl) :: cache

/-- `ToolSchemaCache::get_or_transform`: fast path returns the cached entry
for `tool.name` unchanged; slow path converts the tool, publishes the
extended map, and returns the conversion. -/
def get_or_transform (cache : ToolSchemaCacheMap) (tool : ClaudeTool) :
    ToolSchemaCacheMap × GeminiFunctionDeclaration :=
  match cache_lookup cache tool.name with
  | some cached => (cache, cached)
  | none =>
    let transformed := convert_tool tool
    (cache_insert cache tool.name transformed, transformed)

/-- `transform_tools` (each tool through `transform_tool`, i.e. the cache;
the fold threads the global cache; the function itself can never fail, its
`Result` is always `Ok`). -/
def transform_tools (cache : ToolSchemaCacheMap) (claude_tools : List ClaudeTool) :
    ToolSchemaCacheMap × List GeminiTool :=
  let folded := claude_tools.foldl
    (fun acc t =>
      let r := get_or_transform acc.1 t
      (r.1, acc.2 ++ [r.2]))
    (cache, [])
  (folded.1, [{ function_declarations := folded.2 }])

/-! ## Client request model and validator (`src/models/claude.rs`,
`src/transform/validation.rs`) -/

/-- `ContentBlock` (client dialect). -/
inductive ContentBlock where
  | text (text : String)
  | toolUse (id : String) (name : String) (input : Json)
  | toolResult (tool_use_id : String) (content : String) (is_error : Option Bool)

/-- `ContentType`: a plain string or a list of blocks. -/
inductive ContentType where
  | text (s : String)
  | blocks (bs : List ContentBlock)

/-- `SystemPrompt`. -/
inductive SystemPrompt where
  | text (s : String)
  | blocks (bs : List ContentBlock)

/-- `ClaudeMessage`. -/
structure ClaudeMessage where
  role : String
  content : ContentType

/-- `ClaudeRequest`. -/
structure ClaudeRequest where
  model : String
  messages : List ClaudeMessage
  system : Option SystemPrompt
  max_tokens : Option Nat
  temperature : Option Rat
  stop_sequences : Option (List String)
  stream : Bool
  top_p : Option Rat
  top_k : Option Nat
  tools : Option (List ClaudeTool)

/-- The consecutive-assistant scan of `validate_claude_request` (fold over
messages carrying the previous role). -/
def consecutive_assistants : Option String → List ClaudeMessage → Bool
  | _, [] => false
  | prev, m :: rest =>
    (prev = some "assistant" ∧ m.role = "assistant" : Bool)
      || consecutive_assistants (some m.role) rest

/-- `validate_claude_request`: returns the first violation, in source
order. -/
def validate_claude_request (req : ClaudeRequest) : Except String Unit :=
  match req.messages with
  | [] => .error "No messages provided"
  | m0 :: _ =>
    if m0.role ≠ "user" then .error "First message must be from user"
    else if consecutive_assistants none req.messages then
      .error "Cannot have consecutive assistant messages"
    else if (match req.max_tokens with
             | some t => t = 0 ∨ t > 1000000
             | none => False : Bool) then
      .error "Invalid max_tokens"
    else if (match req.temperature with
             | some t => ¬ (0 ≤ t ∧ t ≤ 2)
             | none => False : Bool) then
      .error "Invalid temperature"
    else if (match req.top_p with
             | some t => ¬ (0 ≤ t ∧ t ≤ 1)
             | none => False : Bool) then
      .error "Invalid top_p"
    else if (match req.top_k with
             | some t => t = 0
             | none => False : Bool) then
      .error "Invalid top_k"
    else .ok ()

/-! ## Request transformer (`src/transform/request.rs`) -/

/-- `GeminiSystemInstruction`. -/
structure GeminiSystemInstruction where
  parts : List GeminiPart

/-- `GenerationConfig`. -/
structure GenerationConfig where
  max_output_tokens : Option Nat
  temperature : Option Rat
  top_p : Option Rat
  top_k : Option Nat
  stop_sequences : Option (List String)

/-- `SafetySetting`. -/
structure SafetySetting where
  category : String
  threshold : String

/-- `GeminiRequest`. -/
structure GeminiRequest where
  contents : List GeminiContent
  system_instruction : Option GeminiSystemInstruction
  generation_config : Option GenerationConfig
  safety_settings : Option (List SafetySetting)
  tools : Option (List GeminiTool)

/-- The block loop of `extract_parts`: returns the parts and the
`has_non_todo_tool_results` flag.  `state` is the correlation store's
`get_function_name` view, itself optional (the Rust parameter is
`Option<&ConversationState>`). -/
def extract_parts_blocks (state : Option (String → Option String)) :
    List ContentBlock → List GeminiPart × Bool
  | [] => ([], false)
  | block :: rest =>
    let r := extract_parts_blocks state rest
    match block with
    | .text t => (GeminiPart.text t :: r.1, r.2)
    | .toolUse _ _ _ => r
    | .toolResult tool_use_id content is_error =>
      let function_name :=
        match state with
        | some st =>
          match st tool_use_id with
          | some n => n
          | none => tool_use_id
        | none => tool_use_id
      let part := GeminiPart.functionResponse
        { name := function_name,
          response := Json.obj
            [("result", Json.str content),
             ("error", Json.bool (is_error.getD false))] }
      (part :: r.1, (function_name ≠ "TodoWrite" : Bool) || r.2)

/-- `extract_parts`. -/
def extract_parts (content : ContentType)
    (state : Option (String → Option String)) : List GeminiPart × Bool :=
  match content with
  | .text t => ([GeminiPart.text t], false)
  | .blocks bs => extract_parts_blocks state bs

/-- `convert_system_prompt`. -/
def convert_system_prompt (system : Option SystemPrompt) :
    Option GeminiSystemInstruction :=
  system.map fun sys =>
    { parts :=
        match sys with
        | .text t => [GeminiPart.text t]
        | .blocks bs => bs.filterMap fun b =>
            match b with
            | .text t => some (GeminiPart.text t)
            | _ => none }

/-- `messages.iter().position(|m| m.role == "user")`. -/
def first_user_idx (msgs : List ClaudeMessage) : Option Nat :=
  msgs.findIdx? (fun m => m.role = "user")

/-- `messages.iter().rposition(|m| m.role == "user")`. -/
def last_user_idx (msgs : List ClaudeMessage) : Option Nat :=
  match msgs.reverse.findIdx? (fun m => m.role = "user") with
  | some j => some (msgs.length - 1 - j)
  | none => none

/-- The skip condition of the message loop: an intermediate `user` message of
a conversation longer than three messages. -/
def prune_skip (total : Nat) (fu lu : Option Nat) (idx : Nat)
    (m : ClaudeMessage) : Bool :=
  (m.role = "user" : Bool) && (total > 3 : Bool)
    && (some idx ≠ fu : Bool) && (some idx ≠ lu : Bool)

/-- The message loop of `transform_request_with_state`: walks the messages
with their indices, skipping pruned intermediate user messages, mapping
roles (`assistant → model`, `user → user`, anything else is a
transformation error), extracting parts, accumulating the
`has_non_todo_tool_results` flag, and dropping messages whose parts come
back empty. -/
def transform_messages (state : Option (String → Option String)) (total : Nat)
    (fu lu : Option Nat) :
    Nat → List ClaudeMessage → Except String (List GeminiContent × Bool)
  | _, [] => .ok ([], false)
  | idx, m :: rest =>
    if prune_skip total fu lu idx m then
      transform_messages state total fu lu (idx + 1) rest
    else
      match (if m.role = "assistant" then some "model"
             else if m.role = "user" then some "user"
             else none) with
      | none => .error ("Invalid role: " ++ m.role)
      | some role =>
        let ep := extract_parts m.content state
        match transform_messages state total fu lu (idx + 1) rest with
        | .error e => .error e
        | .ok r =>
          if ep.1.isEmpty then .ok (r.1, ep.2 || r.2)
          else .ok ({ role := some role, parts := ep.1 } :: r.1, ep.2 || r.2)

/-- The `<system-reminder>` text appended by the auto-todo-prompt feature
(apostrophes written as `\x27` escapes). -/
def todo_reminder_text : String :=
  "\n\n<system-reminder>\nYou MUST now call the TodoWrite tool to update your task list based on the tool execution results above. Analyze the results and:\n1. Mark the current task as \x27completed\x27 if the tool successfully finished it\n2. Keep it as \x27in_progress\x27 if more work is needed\nCall TodoWrite now with the updated task list before continuing.\n</system-reminder>"

/-- Append the todo directive to the last `user`-role content (the
`contents.iter_mut().rev().find(...)` walk), processing the reversed list. -/
def append_todo_rev : List GeminiContent → List GeminiContent
  | [] => []
  | c :: rest =>
    if c.role = some "user" then
      { c with parts := c.parts ++ [GeminiPart.text todo_reminder_text] } :: rest
    else c :: append_todo_rev rest

/-- The auto-todo-prompt injection step. -/
def append_todo_to_last_user (contents : List GeminiContent) : List GeminiContent :=
  (append_todo_rev contents.reverse).reverse

/-- `transform_request_with_state`.  `cache` models the contents of the
process-global `TOOL_CACHE` that `transform_tools` consults. -/
def transform_request_with_state (claude_req : ClaudeRequest)
    (state : Option (String → Option String)) (auto_todo_prompt : Bool)
    (cache : ToolSchemaCacheMap) : Except String GeminiRequest :=
  let fu := first_user_idx claude_req.messages
  let lu := last_user_idx claude_req.messages
  match transform_messages state claude_req.messages.length fu lu 0
      claude_req.messages with
  | .error e => .error e
  | .ok r =>
    let contents :=
      if auto_todo_prompt && r.2 then append_todo_to_last_user r.1 else r.1
    .ok
      { contents := contents,
        system_instruction := convert_system_prompt claude_req.system,
        generation_config := some
          { max_output_tokens := claude_req.max_tokens,
            temperature := claude_req.temperature,
            top_p := claude_req.top_p,
            top_k := claude_req.top_k,
            stop_sequences := claude_req.stop_sequences },
        safety_settings := none,
        tools :=
          match claude_req.tools with
          | some ts => some (transform_tools cache ts).2
          | none => none }

/-! ## Derived predicates used by the SSE claims -/

def is_message_start : SSEEvent → Bool
  | .message_start _ _ _ => true
  | _ => false

def is_message_stop : SSEEvent → Bool
  | .message_stop => true
  | _ => false

def is_content_block_stop : SSEEvent → Bool
  | .content_block_stop _ => true
  | _ => false

def is_message_delta : SSEEvent → Bool
  | .message_delta _ _ => true
  | _ => false

/-- A part that `generate_events` treats as a function call (either
variant). -/
def is_function_call_part : GeminiPart → Bool
  | .functionCall _ => true
  | .functionCallWithThought _ _ => true
  | _ => false

/-- Number of function-call parts in the first candidate's content (the
parts actually walked by `generate_events`). -/
def count_function_call_parts (chunk : GeminiStreamChunk) : Nat :=
  match chunk.candidates.head? with
  | some candidate =>
    match candidate.content with
    | some content => content.parts.countP is_function_call_part
    | none => 0
  | none => 0

/-- The message-level SSE protocol automaton: scans an event list carrying
the "has a message_start been seen" flag; accepts iff `message_start` occurs
only when the flag is still false (hence at most once) and `message_stop`
occurs only when the flag is already true (hence after a `message_start`). -/
def sse_protocol_ok (hs : Bool) : List SSEEvent → Bool
  | [] => true
  | e :: rest =>
    match e with
    | .message_start _ _ _ => !hs && sse_protocol_ok true rest
    | .message_stop => hs && sse_protocol_ok hs rest
    | _ => sse_protocol_ok hs rest

/-- Flag state of the automaton after scanning `evs` from state `hs`. -/
def hs_after (hs : Bool) (evs : List SSEEvent) : Bool :=
  hs || evs.any is_message_start

/-! ## Reference translation for the history-pruning claim

`spec_prune` renders the claim's own words — "drop every user message that
is neither the first nor the last user message" (only when the conversation
has more than three messages) — and `translate_messages` is the per-message
translation of §4.2 without any pruning (role map, content extraction, drop
empty messages).  The pruning claim is then a refinement: the transformer's
`contents` equal the reference translation of the spec-pruned history. -/

/-- A user message that is neither the first nor the last user message. -/
def is_intermediate_user (msgs : List ClaudeMessage) (idx : Nat)
    (m : ClaudeMessage) : Bool :=
  (m.role = "user" : Bool)
    && (first_user_idx msgs ≠ some idx : Bool)
    && (last_user_idx msgs ≠ some idx : Bool)

/-- The claim's pruning, stated on the message list itself. -/
def spec_prune (msgs : List ClaudeMessage) : List ClaudeMessage :=
  if msgs.length > 3 then
    (msgs.enum.filter fun p => !is_intermediate_user msgs p.1 p.2).map (·.2)
  else msgs

/-- Per-message translation without pruning: map roles
(`assistant → model`, `user → user`, others fail), extract parts, drop
messages with no parts. -/
def translate_messages (state : Option (String → Option String)) :
    List ClaudeMessage → Except String (List GeminiContent)
  | [] => .ok []
  | m :: rest =>
    match (if m.role = "assistant" then some "model"
           else if m.role = "user" then some "user"
           else none) with
    | none => .error ("Invalid role: " ++ m.role)
    | some role =>
      let ep := extract_parts m.content state
      match translate_messages state rest with
      | .error e => .error e
      | .ok cs =>
        if ep.1.isEmpty then .ok cs
        else .ok ({ role := some role, parts := ep.1 } :: cs)

/-- Claim C1: for any byte string S that is a (well-formed) concatenated
JSON array of `UpstreamStreamChunk` values — the theorem in fact holds for
every byte string — and for every partition of S into chunks C1..Cn, feeding
C1..Cn in order to a fresh `StreamingJsonParser` produces, concatenated over
the calls, exactly the same ordered list of parsed chunks as a single
`feed(S)` call (for any pure serde parsing function), and the same final
parser state. -/
theorem c1_parser_fragmentation_completeness
    (parse : List Nat → Option GeminiStreamChunk) (chunks : List (List Nat)) :
    (feed_all_parsed parse StreamingJsonParser.new chunks).2
        = (feed_parsed parse StreamingJsonParser.new chunks.flatten).2
      ∧ (feed_all_parsed parse StreamingJsonParser.new chunks).1
        = (feed_parsed parse StreamingJsonParser.new chunks.flatten).1 := by
  unfold feed_all_parsed feed_parsed
  rw [feed_all_join_new]
  exact ⟨rfl, rfl⟩

/-! ## Claim C8: the schema cache -/

theorem cache_lookup_insert (cache : ToolSchemaCacheMap) (name : String)
    (decl : GeminiFunctionDeclaration) :
    cache_lookup (cache_insert cache name decl) name = some decl := by
  simp [cache_insert, cache_lookup]

/-- An example schema for the cache claims. -/
def c8_schema : JsonSchema :=
  JsonSchema.mk "object" none none none none none none none none []

/-- Tool `a`, first registration. -/
def c8_tool_v1 : ClaudeTool := ⟨"a", "first declaration", c8_schema⟩

/-- Tool `a`, attempted re-registration with a different declaration. -/
def c8_tool_v2 : ClaudeTool := ⟨"a", "second declaration", c8_schema⟩

/-- Claim C8 (counterexample): re-registering an already-cached name does
NOT replace the entry — `get_or_transform` returns the previously cached
declaration and leaves the cache unchanged, so with two different
declarations under the same name the second call still yields the first
conversion. -/
theorem c8_counterexample_no_replacement :
    ((get_or_transform (get_or_transform [] c8_tool_v1).1 c8_tool_v2).2.description
        = "first declaration")
      ∧ ((cache_lookup (get_or_transform (get_or_transform [] c8_tool_v1).1 c8_tool_v2).1
            "a").map (fun d => d.description) = some "first declaration")
      ∧ ("first declaration" ≠ "second declaration") := by
  refine ⟨rfl, rfl, ?_⟩
  decide

/-- Claim C8 (amended): `get_or_transform` is a memoizing lookup, not a
replacement: after the call the cache maps `tool.name` to exactly the
returned declaration; if the name was absent, the conversion of the tool is
inserted and returned; if the name was present, the previously cached entry
is returned and the cache is unchanged. -/
theorem c8_schema_cache_memoization (cache : ToolSchemaCacheMap) (tool : ClaudeTool) :
    cache_lookup (get_or_transform cache tool).1 tool.name
        = some (get_or_transform cache tool).2
      ∧ (cache_lookup cache tool.name = none →
          get_or_transform cache tool
            = (cache_insert cache tool.name (convert_tool tool), convert_tool tool))
      ∧ (∀ d, cache_lookup cache tool.name = some d →
          get_or_transform cache tool = (cache, d)) := by
  unfold get_or_transform
  match h : cache_lookup cache tool.name with
  | some cached =>
    refine ⟨h, ?_, ?_⟩
    · intro hnone; exact absurd hnone (by simp)
    · intro d hd; injection hd with hd; rw [hd]
  | none =>
    refine ⟨cache_lookup_insert cache tool.name (convert_tool tool), ?_, ?_⟩
    · intro _; rfl
    · intro d hd; exact absurd hd (by simp)

/-- Witness for C8: on the empty cache, registering `c8_tool_v1` inserts and
returns its conversion. -/
theorem c8_schema_cache_memoization_witness :
    get_or_transform [] c8_tool_v1
      = (cache_insert [] "a" (convert_tool c8_tool_v1), convert_tool c8_tool_v1) :=
  (c8_schema_cache_memoization [] c8_tool_v1).2.1 rfl

/-! ## Claim C5: validator soundness -/

theorem except_isOk_exists {ε α : Type} (r : Except ε α) (h : r.isOk = true) :
    ∃ a, r = .ok a := by
  match r with
  | .ok a => exact ⟨a, rfl⟩
  | .error e => simp [Except.isOk, Except.toBool] at h

theorem transform_messages_ok (state : Option (String → Option String))
    (total : Nat) (fu lu : Option Nat) :
    ∀ (msgs : List ClaudeMessage) (idx : Nat),
    (∀ m ∈ msgs, m.role = "user" ∨ m.role = "assistant") →
    (transform_messages state total fu lu idx msgs).isOk = true := by
  intro msgs
  induction msgs with
  | nil => intro idx _; rfl
  | cons m rest ih =>
    intro idx hroles
    have hm := hroles m (by simp)
    have hrest : ∀ m2 ∈ rest, m2.role = "user" ∨ m2.role = "assistant" := by
      intro m2 hm2; exact hroles m2 (by simp [hm2])
    have hih := ih (idx + 1) hrest
    obtain ⟨r, hr⟩ := except_isOk_exists _ hih
    unfold transform_messages
    by_cases hskip : prune_skip total fu lu idx m
    · rw [if_pos hskip]
      exact hih
    · rw [if_neg hskip]
      rcases hm with hm | hm
      · rw [hm]
        rw [if_neg (by decide : ¬("user" : String) = "assistant"), if_pos rfl]
        dsimp only
        rw [hr]
        dsimp only
        split <;> rfl
      · rw [hm]
        rw [if_pos rfl]
        dsimp only
        rw [hr]
        dsimp only
        split <;> rfl

/-- Claim C5 (amended): every `ClaudeRequest` accepted by
`validate_claude_request` whose message roles are all `user` or `assistant`
is transformed successfully, for any correlation-store argument, any
`auto_todo_prompt` flag and any cache contents.  (The validator acceptance
alone is not enough — see the counterexample — since the validator only pins
the first message's role.) -/
theorem c5_validator_soundness (req : ClaudeRequest)
    (hv : validate_claude_request req = .ok ())
    (hroles : ∀ m ∈ req.messages, m.role = "user" ∨ m.role = "assistant")
    (state : Option (String → Option String)) (auto_todo_prompt : Bool)
    (cache : ToolSchemaCacheMap) :
    ∃ g, transform_request_with_state req state auto_todo_prompt cache = .ok g := by
  obtain ⟨r, hr⟩ := except_isOk_exists _ (transform_messages_ok state req.messages.length
    (first_user_idx req.messages) (last_user_idx req.messages) req.messages 0 hroles)
  unfold transform_request_with_state
  dsimp only
  rw [hr]
  exact ⟨_, rfl⟩

/-- A request the validator accepts and the transformer accepts. -/
def c5_good_request : ClaudeRequest :=
  ⟨"claude-3-5-sonnet", [⟨"user", ContentType.text "hi"⟩], none, none, none,
    none, true, none, none, none⟩

/-- Witness for C5: the simple one-user-message request is accepted by both. -/
theorem c5_validator_soundness_witness :
    ∃ g, transform_request_with_state c5_good_request none false [] = .ok g :=
  c5_validator_soundness c5_good_request rfl
    (by intro m hm; simp only [c5_good_request, List.mem_singleton] at hm; rw [hm]; left; rfl)
    none false []

/-- A request the validator accepts (first message is a user, no consecutive
assistants, no parameters out of range) but whose second message carries the
role `system`, which the transformer rejects. -/
def c5_system_role_request : ClaudeRequest :=
  ⟨"claude-3-5-sonnet",
    [⟨"user", ContentType.text "hi"⟩, ⟨"system", ContentType.text "x"⟩],
    none, none, none, none, true, none, none, none⟩

/-- Claim C5 (counterexample): the validator accepts
`c5_system_role_request` but `transform_request_with_state` fails on it with
a role error, for example with no store and `auto_todo_prompt = false`. -/
theorem c5_counterexample_system_role :
    validate_claude_request c5_system_role_request = .ok ()
      ∧ transform_request_with_state c5_system_role_request none false []
          = .error "Invalid role: system" :=
  ⟨rfl, rfl⟩

/-! ## Claim C10: empty translated contents -/

theorem extract_parts_blocks_empty_flag (state : Option (String → Option String))
    (bs : List ContentBlock) (h : (extract_parts_blocks state bs).1.isEmpty = true) :
    (extract_parts_blocks state bs).2 = false := by
  induction bs with
  | nil => rfl
  | cons b rest ih =>
    match b with
    | .text t => simp [extract_parts_blocks] at h
    | .toolUse i n inp =>
      simp only [extract_parts_blocks] at h ⊢
      exact ih h
    | .toolResult i c e => simp [extract_parts_blocks] at h

theorem extract_parts_empty_flag (state : Option (String → Option String))
    (content : ContentType) (h : (extract_parts content state).1.isEmpty = true) :
    (extract_parts content state).2 = false := by
  match content with
  | .text t => simp [extract_parts] at h
  | .blocks bs => exact extract_parts_blocks_empty_flag state bs h

theorem transform_messages_all_empty (state : Option (String → Option String))
    (total : Nat) (fu lu : Option Nat) :
    ∀ (msgs : List ClaudeMessage) (idx : Nat),
    (∀ m ∈ msgs, m.role = "user" ∨ m.role = "assistant") →
    (∀ p ∈ List.enumFrom idx msgs, prune_skip total fu lu p.1 p.2 = false →
        (extract_parts p.2.content state).1.isEmpty = true) →
    transform_messages state total fu lu idx msgs = .ok ([], false) := by
  intro msgs
  induction msgs with
  | nil => intro idx _ _; rfl
  | cons m rest ih =>
    intro idx hroles hempty
    have hm := hroles m (by simp)
    have hrest : ∀ m2 ∈ rest, m2.role = "user" ∨ m2.role = "assistant" := by
      intro m2 hm2; exact hroles m2 (by simp [hm2])
    have hemptyrest : ∀ p ∈ List.enumFrom (idx + 1) rest,
        prune_skip total fu lu p.1 p.2 = false →
        (extract_parts p.2.content state).1.isEmpty = true := by
      intro p hp
      exact hempty p (by simp [List.enumFrom, hp])
    have hr := ih (idx + 1) hrest hemptyrest
    unfold transform_messages
    by_cases hskip : prune_skip total fu lu idx m
    · rw [if_pos hskip]
      exact hr
    · rw [if_neg hskip]
      have he : (extract_parts m.content state).1.isEmpty = true := by
        refine hempty (idx, m) (by simp [List.enumFrom]) ?_
        exact Bool.not_eq_true _ |>.mp hskip
      have hflag := extract_parts_empty_flag state m.content he
      rcases hm with hm | hm
      · rw [hm]
        rw [if_neg (by decide : ¬("user" : String) = "assistant"), if_pos rfl]
        dsimp only
        rw [hr]
        dsimp only
        rw [if_pos he, hflag]
        rfl
      · rw [hm]
        rw [if_pos rfl]
        dsimp only
        rw [hr]
        dsimp only
        rw [if_pos he, hflag]
        rfl

/-- Claim C10 (amended): a request whose messages all have role `user` or
`assistant` and all reduce to zero parts after content translation (either
dropped by pruning or translating to an empty part list, e.g. assistant
messages holding only `ToolUse` blocks) is transformed successfully, with
`contents` equal to the empty list — emptiness itself is never an error.
(The role restriction is the amendment: a message with an unknown role is
rejected for its role even when its translated parts are empty.) -/
theorem c10_all_empty_messages_ok (req : ClaudeRequest)
    (state : Option (String → Option String))
    (hroles : ∀ m ∈ req.messages, m.role = "user" ∨ m.role = "assistant")
    (hempty : ∀ p ∈ req.messages.enum,
        prune_skip req.messages.length (first_user_idx req.messages)
          (last_user_idx req.messages) p.1 p.2 = false →
        (extract_parts p.2.content state).1.isEmpty = true)
    (auto_todo_prompt : Bool) (cache : ToolSchemaCacheMap) :
    ∃ g, transform_request_with_state req state auto_todo_prompt cache = .ok g
      ∧ g.contents = [] := by
  have hr := transform_messages_all_empty state req.messages.length
    (first_user_idx req.messages) (last_user_idx req.messages) req.messages 0
    hroles hempty
  unfold transform_request_with_state
  dsimp only
  rw [hr]
  dsimp only
  rw [Bool.and_false]
  exact ⟨_, rfl, rfl⟩

/-- A request whose single assistant message holds only a `ToolUse` block
(which `extract_parts` drops). -/
def c10_tool_use_only_request : ClaudeRequest :=
  ⟨"claude-3-5-sonnet",
    [⟨"assistant", ContentType.blocks [ContentBlock.toolUse "toolu_1" "Bash" Json.null]⟩],
    none, none, none, none, true, none, none, none⟩

/-- Witness for C10: the `ToolUse`-only request transforms to `Ok` with empty
`contents` (here with no store, `auto_todo_prompt = true`, empty cache). -/
theorem c10_all_empty_messages_ok_witness :
    ∃ g, transform_request_with_state c10_tool_use_only_request none true [] = .ok g
      ∧ g.contents = [] :=
  c10_all_empty_messages_ok c10_tool_use_only_request none
    (by intro m hm; simp only [c10_tool_use_only_request, List.mem_singleton] at hm
        rw [hm]; right; rfl)
    (by decide) true []

/-- A request all of whose messages reduce to zero parts but which the
transformer rejects (for its unknown role), against the unamended claim. -/
def c10_system_empty_request : ClaudeRequest :=
  ⟨"claude-3-5-sonnet", [⟨"system", ContentType.blocks []⟩],
    none, none, none, none, true, none, none, none⟩

/-- Claim C10 (counterexample): every message of `c10_system_empty_request`
translates to zero parts, yet `transform_request_with_state` returns an
error (the role check precedes everything else), not `Ok` with empty
contents. -/
theorem c10_counterexample_system_empty :
    ((extract_parts (ContentType.blocks []) none).1.isEmpty = true)
      ∧ transform_request_with_state c10_system_empty_request none false []
          = .error "Invalid role: system" :=
  ⟨rfl, rfl⟩

/-! ## Claim C7: message-history pruning -/

theorem transform_messages_spec (state : Option (String → Option String))
    (total : Nat) (fu lu : Option Nat) :
    ∀ (msgs : List ClaudeMessage) (idx : Nat),
    Except.map Prod.fst (transform_messages state total fu lu idx msgs)
      = translate_messages state
          (((List.enumFrom idx msgs).filter
              fun p => !prune_skip total fu lu p.1 p.2).map (·.2)) := by
  intro msgs
  induction msgs with
  | nil => intro idx; rfl
  | cons m rest ih =>
    intro idx
    unfold transform_messages
    simp only [List.enumFrom, List.filter_cons]
    by_cases hskip : prune_skip total fu lu idx m
    · rw [if_pos hskip, hskip]
      simp only [Bool.not_true, if_neg]
      exact ih (idx + 1)
    · rw [if_neg hskip]
      have hskipf : prune_skip total fu lu idx m = false := by
        exact Bool.not_eq_true _ |>.mp hskip
      rw [hskipf]
      simp only [Bool.not_false, if_pos, List.map_cons]
      unfold translate_messages
      match hrole : (if m.role = "assistant" then some "model"
                     else if m.role = "user" then some "user"
                     else none) with
      | none => rfl
      | some role =>
        have hrec := ih (idx + 1)
        match hres : transform_messages state total fu lu (idx + 1) rest with
        | .error e =>
          rw [hres] at hrec
          rw [← hrec]
          rfl
        | .ok r =>
          rw [hres] at hrec
          rw [← hrec]
          dsimp only [Except.map]
          by_cases he : (extract_parts m.content state).1.isEmpty
          · rw [if_pos he, if_pos he]
          · rw [if_neg he, if_neg he]

theorem spec_prune_eq_filtered (msgs : List ClaudeMessage) :
    ((List.enumFrom 0 msgs).filter
        fun p => !prune_skip msgs.length (first_user_idx msgs)
          (last_user_idx msgs) p.1 p.2).map (·.2)
      = spec_prune msgs := by
  unfold spec_prune
  by_cases hlen : msgs.length > 3
  · rw [if_pos hlen]
    have hcongr : ∀ p ∈ List.enumFrom 0 msgs,
        (!prune_skip msgs.length (first_user_idx msgs) (last_user_idx msgs) p.1 p.2)
          = (!is_intermediate_user msgs p.1 p.2) := by
      intro p _
      unfold prune_skip is_intermediate_user
      have h3 : (decide (msgs.length > 3)) = true := by simpa using hlen
      rw [h3]
      rw [show (decide (some p.1 ≠ first_user_idx msgs))
            = (decide (first_user_idx msgs ≠ some p.1)) from decide_eq_decide.mpr ne_comm]
      rw [show (decide (some p.1 ≠ last_user_idx msgs))
            = (decide (last_user_idx msgs ≠ some p.1)) from decide_eq_decide.mpr ne_comm]
      simp only [Bool.and_true]
    rw [List.filter_congr hcongr]
    rfl
  · rw [if_neg hlen]
    have hall : ∀ p ∈ List.enumFrom 0 msgs,
        (!prune_skip msgs.length (first_user_idx msgs) (last_user_idx msgs) p.1 p.2)
          = true := by
      intro p _
      unfold prune_skip
      have h3 : (decide (msgs.length > 3)) = false := by simpa using hlen
      rw [h3]
      simp
    rw [List.filter_congr hall]
    simp only [List.filter_true]
    exact List.enumFrom_map_snd 0 msgs

theorem transform_contents_spec (req : ClaudeRequest)
    (state : Option (String → Option String)) (cache : ToolSchemaCacheMap) :
    Except.map (fun g => g.contents)
        (transform_request_with_state req state false cache)
      = translate_messages state (spec_prune req.messages) := by
  have h := transform_messages_spec state req.messages.length
    (first_user_idx req.messages) (last_user_idx req.messages) req.messages 0
  rw [spec_prune_eq_filtered] at h
  rw [← h]
  unfold transform_request_with_state
  dsimp only
  match hres : transform_messages state req.messages.length
      (first_user_idx req.messages) (last_user_idx req.messages) 0 req.messages with
  | .error e => rfl
  | .ok r => rfl

/-- The S5 conversation: 5 messages, the middle user message carrying a tool
result. -/
def c7_s5_request : ClaudeRequest :=
  ⟨"claude-3-5-sonnet",
    [⟨"user", ContentType.text "Hi"⟩,
     ⟨"assistant", ContentType.text "Working on it"⟩,
     ⟨"user", ContentType.blocks [ContentBlock.toolResult "toolu_A" "result" none]⟩,
     ⟨"assistant", ContentType.text "Done"⟩,
     ⟨"user", ContentType.text "Thanks"⟩],
    none, none, none, none, true, none, none, none⟩

/-- Claim C7 (amended): for every client request the transformer's `contents`
equal the reference per-message translation (role map, content extraction,
*dropping messages whose translated parts are empty*, e.g. assistant
messages holding only ToolUse blocks) of the spec-pruned history, where
spec-pruning drops every user message that is neither the first nor the
last user message whenever the conversation exceeds three messages; in
particular the 5-message conversation [user, assistant, user(tool results),
assistant, user] with text assistants yields exactly 4 contents entries with
roles user, model, model, user. -/
theorem c7_history_pruning (req : ClaudeRequest)
    (state : Option (String → Option String)) (cache : ToolSchemaCacheMap) :
    (Except.map (fun g => g.contents)
          (transform_request_with_state req state false cache)
        = translate_messages state (spec_prune req.messages))
      ∧ ((transform_request_with_state c7_s5_request none false []).map
            (fun g => (g.contents.map (fun c => c.role), g.contents.length))
          = .ok ([some "user", some "model", some "model", some "user"], 4)) :=
  ⟨transform_contents_spec req state cache, rfl⟩

/-- The S5 conversation with the first assistant message holding only a
`ToolUse` block. -/
def c7_tool_use_assistant_request : ClaudeRequest :=
  ⟨"claude-3-5-sonnet",
    [⟨"user", ContentType.text "Hi"⟩,
     ⟨"assistant", ContentType.blocks [ContentBlock.toolUse "toolu_A" "Bash" Json.null]⟩,
     ⟨"user", ContentType.blocks [ContentBlock.toolResult "toolu_A" "out" none]⟩,
     ⟨"assistant", ContentType.text "Done"⟩,
     ⟨"user", ContentType.text "Thanks"⟩],
    none, none, none, none, true, none, none, none⟩

/-- Claim C7 (counterexample): in a 5-message conversation whose first
assistant message holds only a `ToolUse` block, the transformer output has
only 3 entries with roles user, model, user — the assistant message is NOT
retained (its translated parts are empty), contradicting "retains all
assistant messages in position" / "exactly 4 contents entries". -/
theorem c7_counterexample_dropped_assistant :
    ((transform_request_with_state c7_tool_use_assistant_request none false []).map
        (fun g => g.contents.map (fun c => c.role))
      = .ok [some "user", some "model", some "user"])
      ∧ c7_tool_use_assistant_request.messages.countP
          (fun m => m.role = "assistant") = 2 :=
  ⟨rfl, rfl⟩

/-! ## Claim C9: schema-field hygiene -/

mutual

/-- Height measure for the nested `JsonSchema` recursion. -/
def schema_height : JsonSchema → Nat
  | .mk _ _ p _ _ it _ _ _ _ =>
    1 + (match p with
         | some props => schema_height_props props
         | none => 0)
      + (match it with
         | some s => schema_height s
         | none => 0)

def schema_height_props : List (String × JsonSchema) → Nat
  | [] => 0
  | (_, v) :: rest => schema_height v + schema_height_props rest

end

theorem json_keys_fields_append (a b : List (String × Json)) :
    json_keys_fields (a ++ b) = json_keys_fields a ++ json_keys_fields b := by
  induction a with
  | nil => rfl
  | cons kv rest ih =>
    simp only [List.cons_append, json_keys_fields, List.append_eq, ih, List.append_assoc]

theorem json_keys_list_map_str (xs : List String) :
    json_keys_list (xs.map Json.str) = [] := by
  induction xs with
  | nil => rfl
  | cons x rest ih => simp only [List.map_cons, json_keys_list, json_keys, ih]; rfl

theorem schema_height_props_mem (props : List (String × JsonSchema))
    (k : String) (v : JsonSchema) (h : (k, v) ∈ props) :
    schema_height v ≤ schema_height_props props := by
  induction props with
  | nil => simp at h
  | cons kv rest ih =>
    rcases kv with ⟨k0, v0⟩
    rcases List.mem_cons.mp h with h | h
    · cases h
      simp only [schema_height_props]
      omega
    · have := ih h
      simp only [schema_height_props]
      omega

theorem schema_property_names_mk (t : String) (d : Option String)
    (p : Option (List (String × JsonSchema))) (r : Option (List String))
    (e : Option (List Json)) (it : Option JsonSchema) (mi ma : Option Rat)
    (pa : Option String) (add : List (String × Json)) :
    schema_property_names (JsonSchema.mk t d p r e it mi ma pa add)
      = names_seg_props p ++ names_seg_items it := by
  rw [schema_property_names.eq_def]

theorem names_seg_props_some (props : List (String × JsonSchema)) :
    names_seg_props (some props) = schema_property_names_props props := by
  rw [names_seg_props.eq_def]

theorem names_seg_items_some (s : JsonSchema) :
    names_seg_items (some s) = schema_property_names s := by
  rw [names_seg_items.eq_def]

theorem schema_enum_keys_mk (t : String) (d : Option String)
    (p : Option (List (String × JsonSchema))) (r : Option (List String))
    (e : Option (List Json)) (it : Option JsonSchema) (mi ma : Option Rat)
    (pa : Option String) (add : List (String × Json)) :
    schema_enum_keys (JsonSchema.mk t d p r e it mi ma pa add)
      = enum_seg_values e ++ enum_seg_props p ++ enum_seg_items it := by
  rw [schema_enum_keys.eq_def]

theorem enum_seg_values_some (enums : List Json) :
    enum_seg_values (some enums) = json_keys_list enums := by
  rw [enum_seg_values.eq_def]

theorem enum_seg_props_some (props : List (String × JsonSchema)) :
    enum_seg_props (some props) = schema_enum_keys_props props := by
  rw [enum_seg_props.eq_def]

theorem enum_seg_items_some (s : JsonSchema) :
    enum_seg_items (some s) = schema_enum_keys s := by
  rw [enum_seg_items.eq_def]

theorem schema_property_names_props_cons (k0 : String) (v0 : JsonSchema)
    (rest : List (String × JsonSchema)) :
    schema_property_names_props ((k0, v0) :: rest)
      = k0 :: (schema_property_names v0 ++ schema_property_names_props rest) := by
  rw [schema_property_names_props.eq_def]

theorem schema_enum_keys_props_cons (k0 : String) (v0 : JsonSchema)
    (rest : List (String × JsonSchema)) :
    schema_enum_keys_props ((k0, v0) :: rest)
      = schema_enum_keys v0 ++ schema_enum_keys_props rest := by
  rw [schema_enum_keys_props.eq_def]

theorem seg_keys_opt_str (name : String) (o : Option String) (k : String)
    (h : k ∈ json_keys_fields (seg_opt_str name o)) :
    k = name := by
  cases o <;> simp [seg_opt_str, json_keys_fields, json_keys] at h <;> simp [h]

theorem seg_keys_opt_num (name : String) (o : Option Rat) (k : String)
    (h : k ∈ json_keys_fields (seg_opt_num name o)) :
    k = name := by
  cases o <;> simp [seg_opt_num, json_keys_fields, json_keys] at h <;> simp [h]

theorem seg_keys_required (o : Option (List String)) (k : String)
    (h : k ∈ json_keys_fields (seg_required o)) :
    k = "required" := by
  cases o with
  | none => simp [seg_required, json_keys_fields] at h
  | some req =>
    simp [seg_required, json_keys_fields, json_keys, json_keys_list_map_str] at h
    simp [h]

theorem seg_keys_enum (o : Option (List Json)) (k : String)
    (h : k ∈ json_keys_fields (seg_enum o)) :
    k = "enum" ∨ k ∈ enum_seg_values o := by
  cases o with
  | none => simp [seg_enum, json_keys_fields] at h
  | some enums =>
    simp only [seg_enum, json_keys_fields, json_keys, List.append_nil] at h
    rcases List.mem_cons.mp h with h | h
    · exact Or.inl h
    · rw [enum_seg_values_some]
      exact Or.inr h

theorem seg_properties_none : seg_properties none = [] := by
  rw [seg_properties.eq_def]

theorem seg_properties_some (props : List (String × JsonSchema)) :
    seg_properties (some props)
      = [("properties", Json.obj (serialize_schema_props props))] := by
  rw [seg_properties.eq_def]

theorem seg_items_none : seg_items none = [] := by
  rw [seg_items.eq_def]

theorem seg_items_some (s : JsonSchema) :
    seg_items (some s) = [("items", serialize_json_schema s)] := by
  rw [seg_items.eq_def]

theorem seg_keys_properties (o : Option (List (String × JsonSchema))) (k : String)
    (h : k ∈ json_keys_fields (seg_properties o)) :
    k = "properties" ∨ ∃ props, o = some props
      ∧ k ∈ json_keys_fields (serialize_schema_props props) := by
  cases o with
  | none => rw [seg_properties_none] at h; simp [json_keys_fields] at h
  | some props =>
    rw [seg_properties_some] at h
    simp only [json_keys_fields, json_keys, List.append_nil] at h
    rcases List.mem_cons.mp h with h | h
    · exact Or.inl h
    · exact Or.inr ⟨props, rfl, h⟩

theorem seg_keys_items (o : Option JsonSchema) (k : String)
    (h : k ∈ json_keys_fields (seg_items o)) :
    k = "items" ∨ ∃ s2, o = some s2
      ∧ k ∈ json_keys (serialize_json_schema s2) := by
  cases o with
  | none => rw [seg_items_none] at h; simp [json_keys_fields] at h
  | some it =>
    rw [seg_items_some] at h
    simp only [json_keys_fields, List.append_nil] at h
    rcases List.mem_cons.mp h with h | h
    · exact Or.inl h
    · exact Or.inr ⟨it, rfl, h⟩

theorem json_keys_obj (fields : List (String × Json)) :
    json_keys (Json.obj fields) = json_keys_fields fields := by
  rw [json_keys.eq_def]

theorem serialize_json_schema_mk (t : String) (d : Option String)
    (p : Option (List (String × JsonSchema))) (r : Option (List String))
    (e : Option (List Json)) (it : Option JsonSchema) (mi ma : Option Rat)
    (pa : Option String) (add : List (String × Json)) :
    serialize_json_schema (JsonSchema.mk t d p r e it mi ma pa add)
      = Json.obj
          ([("type", Json.str t)]
            ++ seg_opt_str "description" d
            ++ seg_properties p
            ++ seg_required r
            ++ seg_enum e
            ++ seg_items it
            ++ seg_opt_num "minimum" mi
            ++ seg_opt_num "maximum" ma
            ++ seg_opt_str "pattern" pa) := by
  rw [serialize_json_schema.eq_def]

theorem serialize_schema_props_nil :
    serialize_schema_props [] = [] := by
  rw [serialize_schema_props.eq_def]

theorem serialize_schema_props_cons (k : String) (v : JsonSchema)
    (rest : List (String × JsonSchema)) :
    serialize_schema_props ((k, v) :: rest)
      = (k, serialize_json_schema v) :: serialize_schema_props rest := by
  rw [serialize_schema_props.eq_def]


theorem serialize_schema_keys_bounded :
    ∀ (n : Nat) (s : JsonSchema), schema_height s ≤ n →
    ∀ k ∈ json_keys (serialize_json_schema s),
      k ∈ schema_field_whitelist
        ∨ k ∈ schema_property_names s ∨ k ∈ schema_enum_keys s := by
  intro n
  induction n with
  | zero =>
    intro s hs
    rcases s with ⟨t, d, p, r, e, it, mi, ma, pa, add⟩
    unfold schema_height at hs
    omega
  | succ n ih =>
    intro s hs k hk
    rcases s with ⟨t, d, p, r, e, it, mi, ma, pa, add⟩
    unfold schema_height at hs
    rw [serialize_json_schema_mk, json_keys_obj] at hk
    simp only [json_keys_fields_append] at hk
    simp only [List.mem_append] at hk
    rw [schema_property_names_mk, schema_enum_keys_mk]
    simp only [List.mem_append]
    -- the nine segments, in serialization order
    rcases hk with ((((((((hk | hk) | hk) | hk) | hk) | hk) | hk) | hk) | hk)
    · -- type
      simp only [json_keys_fields, json_keys, List.append_nil] at hk
      rcases List.mem_cons.mp hk with hk | hk
      · exact Or.inl (by rw [hk]; decide)
      · simp at hk
    · -- description
      have hd := seg_keys_opt_str "description" d k hk
      exact Or.inl (by rw [hd]; decide)
    · -- properties
      have hsplit := seg_keys_properties p k hk
      clear hk
      rcases hsplit with hk | ⟨props, hp, hk⟩
      · exact Or.inl (by rw [hk]; decide)
      · subst hp
        have hbound : schema_height_props props ≤ n := by
          dsimp only at hs
          omega
        -- inner induction over the property list, using `ih` on each value
        have inner : ∀ (props2 : List (String × JsonSchema)),
            schema_height_props props2 ≤ n →
            ∀ k2 ∈ json_keys_fields (serialize_schema_props props2),
              k2 ∈ schema_property_names_props props2
                ∨ k2 ∈ schema_field_whitelist
                ∨ k2 ∈ schema_enum_keys_props props2 := by
          intro props2
          induction props2 with
          | nil =>
            intro _ k2 hk2
            rw [serialize_schema_props_nil] at hk2
            simp [json_keys_fields] at hk2
          | cons kv rest ihp =>
            rcases kv with ⟨k0, v0⟩
            intro hb k2 hk2
            rw [serialize_schema_props_cons] at hk2
            simp only [json_keys_fields] at hk2
            simp only [schema_height_props] at hb
            rw [schema_property_names_props_cons, schema_enum_keys_props_cons]
            rcases List.mem_cons.mp hk2 with hk2 | hk2
            · exact Or.inl (by rw [hk2]; simp)
            · rcases List.mem_append.mp hk2 with hk2 | hk2
              · have hv := ih v0 (by omega) k2 hk2
                rcases hv with hv | hv | hv
                · exact Or.inr (Or.inl hv)
                · refine Or.inl ?_
                  simp only [List.mem_cons, List.mem_append]
                  exact Or.inr (Or.inl hv)
                · refine Or.inr (Or.inr ?_)
                  simp only [List.mem_append]
                  exact Or.inl hv
              · have hr := ihp (by omega) k2 hk2
                rcases hr with hr | hr | hr
                · refine Or.inl ?_
                  simp only [List.mem_cons, List.mem_append]
                  exact Or.inr (Or.inr hr)
                · exact Or.inr (Or.inl hr)
                · refine Or.inr (Or.inr ?_)
                  simp only [List.mem_append]
                  exact Or.inr hr
        have hres := inner props hbound k hk
        rcases hres with hres | hres | hres
        · exact Or.inr (Or.inl (Or.inl (by rw [names_seg_props_some]; exact hres)))
        · exact Or.inl hres
        · exact Or.inr (Or.inr (Or.inl (Or.inr (by rw [enum_seg_props_some]; exact hres))))
    · -- required
      have hr2 := seg_keys_required r k hk
      exact Or.inl (by rw [hr2]; decide)
    · -- enum
      have hsplit := seg_keys_enum e k hk
      clear hk
      rcases hsplit with hk | hk
      · exact Or.inl (by rw [hk]; decide)
      · exact Or.inr (Or.inr (Or.inl (Or.inl hk)))
    · -- items
      have hsplit := seg_keys_items it k hk
      clear hk
      rcases hsplit with hk | ⟨s2, hit, hk⟩
      · exact Or.inl (by rw [hk]; decide)
      · subst hit
        have hb2 : schema_height s2 ≤ n := by
          dsimp only at hs
          omega
        have hv := ih s2 hb2 k hk
        rcases hv with hv | hv | hv
        · exact Or.inl hv
        · exact Or.inr (Or.inl (Or.inr (by rw [names_seg_items_some]; exact hv)))
        · exact Or.inr (Or.inr (Or.inr (by rw [enum_seg_items_some]; exact hv)))
    · -- minimum
      have hm := seg_keys_opt_num "minimum" mi k hk
      exact Or.inl (by rw [hm]; decide)
    · -- maximum
      have hm := seg_keys_opt_num "maximum" ma k hk
      exact Or.inl (by rw [hm]; decide)
    · -- pattern
      have hp2 := seg_keys_opt_str "pattern" pa k hk
      exact Or.inl (by rw [hp2]; decide)

theorem serialize_ignores_additional (s : JsonSchema)
    (extra : List (String × Json)) :
    serialize_json_schema (s.withAdditional extra) = serialize_json_schema s := by
  rcases s with ⟨t, d, p, r, e, it, mi, ma, pa, add⟩
  rw [show JsonSchema.withAdditional (JsonSchema.mk t d p r e it mi ma pa add) extra
        = JsonSchema.mk t d p r e it mi ma pa extra from rfl]
  rw [serialize_json_schema_mk, serialize_json_schema_mk]

/-- Claim C9 (amended): every object key in the upstream serialization of a
`JsonSchema` is either a whitelisted schema field name (`type, description,
properties, required, enum, items, minimum, maximum, pattern`), a property
name declared under some `properties` map, or a key occurring inside a
user-supplied `enum` value; and the serialization is entirely independent of
the flattened `additional` catch-all, so captured input fields such as
`additionalProperties`, `$schema` or `$id` never leak. -/
theorem c9_schema_field_hygiene (s : JsonSchema) :
    (∀ k ∈ json_keys (serialize_json_schema s),
        k ∈ schema_field_whitelist
          ∨ k ∈ schema_property_names s ∨ k ∈ schema_enum_keys s)
      ∧ (∀ extra, serialize_json_schema (s.withAdditional extra)
          = serialize_json_schema s) :=
  ⟨fun k hk =>
      serialize_schema_keys_bounded (schema_height s) s (Nat.le_refl _) k hk,
    fun extra => serialize_ignores_additional s extra⟩

/-- The schema of the `location` property of the weather-tool example. -/
def c9_location_schema : JsonSchema :=
  JsonSchema.mk "string" (some "City name") none none none none none none none []

/-- The weather-tool input schema with unsupported input fields captured in
`additional`. -/
def c9_get_weather_schema : JsonSchema :=
  JsonSchema.mk "object" none (some [("location", c9_location_schema)])
    (some ["location"]) none none none none none
    [("additionalProperties", Json.bool false),
     ("$schema", Json.str "http://json-schema.org/draft-07/schema#")]

/-- Witness for C9: the key `location` of the serialized weather schema is
accounted for by the theorem (it is a declared property name). -/
theorem c9_schema_field_hygiene_witness :
    "location" ∈ schema_field_whitelist
      ∨ "location" ∈ schema_property_names c9_get_weather_schema
      ∨ "location" ∈ schema_enum_keys c9_get_weather_schema :=
  (c9_schema_field_hygiene c9_get_weather_schema).1 "location" (by decide)

/-- Claim C9 (counterexample): the serialized weather schema contains the
key `location` — a property name — at a nesting level, and `location` is not
in the whitelist, so "only keys from the whitelist ever appear at any
nesting level" is false as stated.  (The captured `additionalProperties` and
`$schema` fields, by contrast, are indeed dropped.) -/
theorem c9_counterexample_property_name_key :
    "location" ∈ json_keys (serialize_json_schema c9_get_weather_schema)
      ∧ "location" ∉ schema_field_whitelist
      ∧ "$schema" ∉ json_keys (serialize_json_schema c9_get_weather_schema)
      ∧ "additionalProperties" ∉ json_keys (serialize_json_schema c9_get_weather_schema) := by
  decide

/-! ## Claim C3: the S3 function-call scenario -/

/-- The S3 function call. -/
def c3_function_call : FunctionCall :=
  ⟨"get_weather", Json.obj [("location", Json.str "SF")]⟩

/-- First candidate content of the S3 chunk. -/
def c3_content : GeminiContent :=
  ⟨some "model", [GeminiPart.functionCall c3_function_call]⟩

/-- The S3 chunk: one candidate, one FunctionCall part, finishReason STOP. -/
def c3_chunk : GeminiStreamChunk :=
  ⟨[⟨some c3_content, some "STOP", none, none⟩], none, none⟩

/-- Claim C3 (amended): feeding a fresh generator the S3 chunk emits, in
order: `message_start`, `content_block_start(index=0, text)` (the header
pair), `content_block_start(index=0, tool_use get_weather)`,
`content_block_delta(index=0, input_json_delta "{\"location\":\"SF\"}")`,
`content_block_stop(index=0)`, `message_delta(stop_reason="tool_use")`,
`message_stop` — the tool-use block's events all carry index 0 (not 1), and
a text content-block header at index 0 precedes them.  The tool-use id is
`toolu_` followed by the drawn uuid. -/
theorem c3_s3_function_call_events (idOf : Nat → String) (model : String) :
    (generate_events idOf (SSEEventGenerator.new model) c3_chunk).2
      = [.message_start model 0 1,
         .content_block_start_text 0,
         .content_block_start_tool_use 0 ("toolu_" ++ idOf 0) "get_weather",
         .content_block_delta_input_json 0 "\x7b\"location\":\"SF\"\x7d",
         .content_block_stop 0,
         .message_delta "tool_use" 0,
         .message_stop] := rfl

/-- Claim C3 (counterexample): on the S3 chunk no emitted event is a
tool-use `content_block_start` with index 1 — the tool-use block starts at
index 0 — and the second emitted event is a text `content_block_start` at
index 0, absent from the claimed sequence. -/
theorem c3_counterexample_tool_index_zero :
    ((generate_events (fun _ => "uuid") (SSEEventGenerator.new "claude-3-5-sonnet")
          c3_chunk).2.countP
        (fun e => match e with
                  | .content_block_start_tool_use 1 _ _ => true
                  | _ => false) = 0)
      ∧ ((generate_events (fun _ => "uuid") (SSEEventGenerator.new "claude-3-5-sonnet")
            c3_chunk).2.countP
          (fun e => match e with
                    | .content_block_start_tool_use 0 _ "get_weather" => true
                    | _ => false) = 1)
      ∧ ((generate_events (fun _ => "uuid") (SSEEventGenerator.new "claude-3-5-sonnet")
            c3_chunk).2[1]? = some (.content_block_start_text 0)) := by
  decide

/-! ## Claim C2: token accounting -/

/-- Bool form of "the chunk never carries `candidates_token_count`". -/
def usage_candidates_absent (chunk : GeminiStreamChunk) : Bool :=
  match chunk.usage_metadata with
  | some usage => usage.candidates_token_count.isNone
  | none => true

theorem sse_process_part_output (idOf : Nat → String)
    (acc : SSEEventGenerator × List SSEEvent) (part : GeminiPart) :
    (sse_process_part idOf acc part).1.output_tokens = acc.1.output_tokens
      ∧ (sse_process_part idOf acc part).2.countP is_message_delta
          = acc.2.countP is_message_delta := by
  rcases acc with ⟨g, evs⟩
  match part with
  | .text t =>
    unfold sse_process_part
    dsimp only
    split
    · constructor
      · split <;> rfl
      · split <;>
          simp [List.countP_append, sse_header_events, is_message_delta, List.countP_cons]
    · exact ⟨rfl, rfl⟩
  | .textWithThought t sig =>
    unfold sse_process_part
    dsimp only
    split
    · constructor
      · split <;> rfl
      · split <;>
          simp [List.countP_append, sse_header_events, is_message_delta, List.countP_cons]
    · exact ⟨rfl, rfl⟩
  | .functionCallWithThought fc sig =>
    unfold sse_process_part sse_emit_function_call
    refine ⟨rfl, ?_⟩
    simp [List.countP_append, is_message_delta, List.countP_cons]
  | .functionCall fc =>
    unfold sse_process_part sse_emit_function_call
    refine ⟨rfl, ?_⟩
    simp [List.countP_append, is_message_delta, List.countP_cons]
  | .inlineData m d2 => exact ⟨rfl, rfl⟩
  | .functionResponse fr => exact ⟨rfl, rfl⟩

theorem sse_parts_fold_output (idOf : Nat → String) (parts : List GeminiPart) :
    ∀ (acc : SSEEventGenerator × List SSEEvent),
    (parts.foldl (sse_process_part idOf) acc).1.output_tokens = acc.1.output_tokens
      ∧ (parts.foldl (sse_process_part idOf) acc).2.countP is_message_delta
          = acc.2.countP is_message_delta := by
  induction parts with
  | nil => intro acc; exact ⟨rfl, rfl⟩
  | cons part rest ih =>
    intro acc
    simp only [List.foldl_cons]
    have h1 := sse_process_part_output idOf acc part
    have h2 := ih (sse_process_part idOf acc part)
    exact ⟨h1.1 ▸ h2.1, h1.2 ▸ h2.2⟩


theorem sse_usage_update_output (g : SSEEventGenerator)
    (chunk : GeminiStreamChunk) (h : usage_candidates_absent chunk = true) :
    (sse_usage_update g chunk).output_tokens = g.output_tokens := by
  unfold sse_usage_update usage_candidates_absent at *
  match hu : chunk.usage_metadata with
  | none => rfl
  | some usage =>
    rw [hu] at h
    dsimp only at h
    dsimp only
    match hc : usage.candidates_token_count with
    | some o => rw [hc] at h; simp [Option.isNone] at h
    | none => rfl

theorem sse_first_header_output (g : SSEEventGenerator)
    (chunk : GeminiStreamChunk) :
    (sse_first_header g chunk).1.output_tokens = g.output_tokens
      ∧ (sse_first_header g chunk).2.countP is_message_delta = 0 := by
  unfold sse_first_header
  split <;> simp [sse_header_events, is_message_delta, List.countP_cons]

theorem sse_finish_output (chunk : GeminiStreamChunk) (candidate : Candidate)
    (acc : SSEEventGenerator × List SSEEvent) :
    (sse_finish chunk candidate acc).1.output_tokens = acc.1.output_tokens
      ∧ ∀ sr n, SSEEvent.message_delta sr n ∈ (sse_finish chunk candidate acc).2 →
          SSEEvent.message_delta sr n ∈ acc.2 ∨ n = acc.1.output_tokens := by
  unfold sse_finish
  match hf : candidate.finish_reason with
  | none => exact ⟨rfl, fun sr n hmem => Or.inl hmem⟩
  | some finish_reason =>
    dsimp only
    constructor
    · split <;> rfl
    · intro sr n hmem
      rw [List.mem_append] at hmem
      rcases hmem with hmem | hmem
      · split at hmem
        · rw [List.mem_append] at hmem
          rcases hmem with hmem | hmem
          · rw [List.mem_append] at hmem
            rcases hmem with hmem | hmem
            · exact Or.inl hmem
            · exfalso
              revert hmem
              split <;> simp [sse_header_events]
          · simp at hmem
        · rw [List.mem_append] at hmem
          rcases hmem with hmem | hmem
          · exact Or.inl hmem
          · exfalso
            revert hmem
            split <;> simp [sse_header_events]
      · simp only [List.mem_cons, List.mem_singleton] at hmem
        rcases hmem with hmem | hmem
        · injection hmem with h1 h2
          refine Or.inr ?_
          rw [h2]
          split <;> rfl
        · simp at hmem

theorem generate_events_all_acc (idOf : Nat → String)
    (chunks : List GeminiStreamChunk) :
    ∀ (g : SSEEventGenerator) (out : List SSEEvent),
    chunks.foldl
        (fun acc ch =>
          ((generate_events idOf acc.1 ch).1, acc.2 ++ (generate_events idOf acc.1 ch).2))
        (g, out)
      = ((generate_events_all idOf g chunks).1,
         out ++ (generate_events_all idOf g chunks).2) := by
  induction chunks with
  | nil => intro g out; simp [generate_events_all]
  | cons ch rest ih =>
    intro g out
    simp only [generate_events_all, List.foldl_cons]
    rw [ih (generate_events idOf g ch).1 (out ++ (generate_events idOf g ch).2),
        ih (generate_events idOf g ch).1 ([] ++ (generate_events idOf g ch).2)]
    simp

theorem generate_events_all_cons (idOf : Nat → String) (g : SSEEventGenerator)
    (ch : GeminiStreamChunk) (rest : List GeminiStreamChunk) :
    generate_events_all idOf g (ch :: rest)
      = ((generate_events_all idOf (generate_events idOf g ch).1 rest).1,
         (generate_events idOf g ch).2
           ++ (generate_events_all idOf (generate_events idOf g ch).1 rest).2) := by
  simp only [generate_events_all, List.foldl_cons]
  rw [generate_events_all_acc idOf rest (generate_events idOf g ch).1
      ([] ++ (generate_events idOf g ch).2)]
  simp [generate_events_all]

theorem generate_events_output_tokens (idOf : Nat → String)
    (g : SSEEventGenerator) (chunk : GeminiStreamChunk)
    (h : usage_candidates_absent chunk = true) :
    (generate_events idOf g chunk).1.output_tokens = g.output_tokens
      ∧ ∀ sr n, SSEEvent.message_delta sr n ∈ (generate_events idOf g chunk).2 →
          n = g.output_tokens := by
  unfold generate_events
  dsimp only
  have hu := sse_usage_update_output g chunk h
  have hh := sse_first_header_output (sse_usage_update g chunk) chunk
  match hc : chunk.candidates.head? with
  | none =>
    constructor
    · rw [hh.1, hu]
    · intro sr n hmem
      exfalso
      have hz := List.countP_eq_zero.mp hh.2 _ hmem
      simp [is_message_delta] at hz
  | some candidate =>
    have hpp : (match candidate.content with
        | some content =>
          content.parts.foldl (sse_process_part idOf)
            (sse_first_header (sse_usage_update g chunk) chunk)
        | none => sse_first_header (sse_usage_update g chunk) chunk).1.output_tokens
          = (sse_first_header (sse_usage_update g chunk) chunk).1.output_tokens
        ∧ (match candidate.content with
           | some content =>
             content.parts.foldl (sse_process_part idOf)
               (sse_first_header (sse_usage_update g chunk) chunk)
           | none => sse_first_header (sse_usage_update g chunk) chunk).2.countP
              is_message_delta = 0 := by
      match candidate.content with
      | some content =>
        have hfold := sse_parts_fold_output idOf content.parts
          (sse_first_header (sse_usage_update g chunk) chunk)
        exact ⟨hfold.1, by rw [hfold.2, hh.2]⟩
      | none => exact ⟨rfl, hh.2⟩
    have hf := sse_finish_output chunk candidate
      (match candidate.content with
       | some content =>
         content.parts.foldl (sse_process_part idOf)
           (sse_first_header (sse_usage_update g chunk) chunk)
       | none => sse_first_header (sse_usage_update g chunk) chunk)
    constructor
    · rw [hf.1, hpp.1, hh.1, hu]
    · intro sr n hmem
      rcases hf.2 sr n hmem with hin | hn
      · exfalso
        have hz := List.countP_eq_zero.mp hpp.2 _ hin
        simp [is_message_delta] at hz
      · rw [hn, hpp.1, hh.1, hu]

/-- Claim C2 (amended): when no chunk of the stream ever carries
`usage_metadata.candidates_token_count`, `output_tokens` stays 0 from the
fresh generator through the whole stream, and every emitted `message_delta`
event — in particular the final one — carries `output_tokens = 0`.  There is
no `max(len(text)/4, 1)` per-delta estimation anywhere. -/
theorem c2_no_output_token_estimation (idOf : Nat → String) (model : String)
    (chunks : List GeminiStreamChunk)
    (h : ∀ ch ∈ chunks, usage_candidates_absent ch = true) :
    (generate_events_all idOf (SSEEventGenerator.new model) chunks).1.output_tokens = 0
      ∧ ∀ sr n, SSEEvent.message_delta sr n
          ∈ (generate_events_all idOf (SSEEventGenerator.new model) chunks).2 →
          n = 0 := by
  suffices hgen : ∀ (chunks2 : List GeminiStreamChunk) (g : SSEEventGenerator),
      (∀ ch ∈ chunks2, usage_candidates_absent ch = true) →
      (generate_events_all idOf g chunks2).1.output_tokens = g.output_tokens
        ∧ ∀ sr n, SSEEvent.message_delta sr n
            ∈ (generate_events_all idOf g chunks2).2 → n = g.output_tokens by
    exact hgen chunks (SSEEventGenerator.new model) h
  intro chunks2
  induction chunks2 with
  | nil =>
    intro g _
    exact ⟨rfl, fun sr n hmem => by simp [generate_events_all] at hmem⟩
  | cons ch rest ih =>
    intro g hall
    have hch := hall ch (by simp)
    have hrest : ∀ ch2 ∈ rest, usage_candidates_absent ch2 = true := by
      intro ch2 hm; exact hall ch2 (by simp [hm])
    have h1 := generate_events_output_tokens idOf g ch hch
    have h2 := ih (generate_events idOf g ch).1 hrest
    rw [generate_events_all_cons]
    constructor
    · dsimp only
      rw [h2.1, h1.1]
    · intro sr n hmem
      dsimp only at hmem
      rw [List.mem_append] at hmem
      rcases hmem with hmem | hmem
      · exact h1.2 sr n hmem
      · rw [h2.2 sr n hmem, h1.1]

/-- A text chunk with no usage metadata. -/
def c2_text_chunk : GeminiStreamChunk :=
  ⟨[⟨some ⟨some "model", [GeminiPart.text "Hello!"]⟩, none, none, none⟩], none, none⟩

/-- A finish chunk with no usage metadata. -/
def c2_finish_chunk : GeminiStreamChunk :=
  ⟨[⟨none, some "STOP", none, none⟩], none, none⟩

/-- Witness for C2: over the concrete stream [text "Hello!", finish STOP]
with no usage metadata anywhere, the final `output_tokens` is 0. -/
theorem c2_no_output_token_estimation_witness :
    (generate_events_all (fun _ => "u") (SSEEventGenerator.new "m")
        [c2_text_chunk, c2_finish_chunk]).1.output_tokens = 0 :=
  (c2_no_output_token_estimation (fun _ => "u") "m" [c2_text_chunk, c2_finish_chunk]
    (by decide)).1

/-- Claim C2 (counterexample): on the stream [text "Hello!", finish STOP]
without `candidates_token_count`, the final `message_delta` carries
`output_tokens = 0`, while the claimed per-delta estimate
`max(len("Hello!")/4, 1)` is 1 — the generator performs no estimation. -/
theorem c2_counterexample_no_estimate :
    ((generate_events_all (fun _ => "u") (SSEEventGenerator.new "m")
          [c2_text_chunk, c2_finish_chunk]).2
        = [.message_start "m" 0 1, .content_block_start_text 0,
           .content_block_delta_text 0 "Hello!", .content_block_stop 0,
           .message_delta "end_turn" 0, .message_stop])
      ∧ Nat.max ("Hello!".length / 4) 1 = 1
      ∧ (0 : Nat) ≠ 1 :=
  ⟨rfl, rfl, by decide⟩


/-! ## Claim C6: message_start / message_stop discipline -/

theorem hs_after_nil (hs : Bool) : hs_after hs [] = hs := by
  simp [hs_after]

theorem hs_after_true (evs : List SSEEvent) : hs_after true evs = true := by
  simp [hs_after]

theorem hs_after_append (hs : Bool) (a b : List SSEEvent) :
    hs_after hs (a ++ b) = hs_after (hs_after hs a) b := by
  simp [hs_after, List.any_append, Bool.or_assoc]

theorem hs_after_cons_other (hs : Bool) (e : SSEEvent) (l : List SSEEvent)
    (he : is_message_start e = false) :
    hs_after hs (e :: l) = hs_after hs l := by
  simp [hs_after, he]

theorem sse_protocol_ok_append (a : List SSEEvent) :
    ∀ (hs : Bool) (b : List SSEEvent),
    sse_protocol_ok hs (a ++ b)
      = (sse_protocol_ok hs a && sse_protocol_ok (hs_after hs a) b) := by
  induction a with
  | nil => intro hs b; simp [sse_protocol_ok, hs_after]
  | cons e rest ih =>
    intro hs b
    match e with
    | .message_start m i o =>
      have hafter : hs_after hs (SSEEvent.message_start m i o :: rest)
          = true := by
        simp [hs_after, is_message_start]
      simp only [List.cons_append, sse_protocol_ok, List.append_eq, hafter, ih, hs_after_true,
        Bool.and_assoc]
    | .message_stop =>
      have hafter : hs_after hs (SSEEvent.message_stop :: rest)
          = hs_after hs rest := by
        simp [hs_after, is_message_start]
      simp only [List.cons_append, sse_protocol_ok, List.append_eq, hafter, ih, Bool.and_assoc]
    | .content_block_start_text i =>
      have hafter : hs_after hs (SSEEvent.content_block_start_text i :: rest)
          = hs_after hs rest := by
        simp [hs_after, is_message_start]
      simp only [List.cons_append, sse_protocol_ok, List.append_eq, hafter, ih]
    | .content_block_start_tool_use i id2 nm =>
      have hafter : hs_after hs (SSEEvent.content_block_start_tool_use i id2 nm :: rest)
          = hs_after hs rest := by
        simp [hs_after, is_message_start]
      simp only [List.cons_append, sse_protocol_ok, List.append_eq, hafter, ih]
    | .content_block_delta_text i t =>
      have hafter : hs_after hs (SSEEvent.content_block_delta_text i t :: rest)
          = hs_after hs rest := by
        simp [hs_after, is_message_start]
      simp only [List.cons_append, sse_protocol_ok, List.append_eq, hafter, ih]
    | .content_block_delta_input_json i f =>
      have hafter : hs_after hs (SSEEvent.content_block_delta_input_json i f :: rest)
          = hs_after hs rest := by
        simp [hs_after, is_message_start]
      simp only [List.cons_append, sse_protocol_ok, List.append_eq, hafter, ih]
    | .content_block_stop i =>
      have hafter : hs_after hs (SSEEvent.content_block_stop i :: rest)
          = hs_after hs rest := by
        simp [hs_after, is_message_start]
      simp only [List.cons_append, sse_protocol_ok, List.append_eq, hafter, ih]
    | .message_delta sr o =>
      have hafter : hs_after hs (SSEEvent.message_delta sr o :: rest)
          = hs_after hs rest := by
        simp [hs_after, is_message_start]
      simp only [List.cons_append, sse_protocol_ok, List.append_eq, hafter, ih]
    | .error_event t m =>
      have hafter : hs_after hs (SSEEvent.error_event t m :: rest)
          = hs_after hs rest := by
        simp [hs_after, is_message_start]
      simp only [List.cons_append, sse_protocol_ok, List.append_eq, hafter, ih]

theorem sse_header_events_ok (g : SSEEventGenerator) :
    sse_protocol_ok false (sse_header_events g) = true := rfl

theorem hs_after_header_events (hs : Bool) (g : SSEEventGenerator) :
    hs_after hs (sse_header_events g) = true := by
  simp [hs_after, sse_header_events, is_message_start]

theorem sse_emit_function_call_inv (idOf : Nat → String) (g : SSEEventGenerator)
    (evs : List SSEEvent) (fc : FunctionCall) (sig : Option String) (hs0 : Bool)
    (hok : sse_protocol_ok hs0 evs = true)
    (hhs : hs_after hs0 evs = g.header_sent) :
    sse_protocol_ok hs0 (sse_emit_function_call idOf g evs fc sig).2 = true
    ∧ hs_after hs0 (sse_emit_function_call idOf g evs fc sig).2
        = (sse_emit_function_call idOf g evs fc sig).1.header_sent := by
  unfold sse_emit_function_call
  dsimp only
  constructor
  · rw [sse_protocol_ok_append, hok]
    simp [sse_protocol_ok]
  · rw [hs_after_append, hhs]
    simp [hs_after, is_message_start]

theorem sse_process_part_inv (idOf : Nat → String) (hs0 : Bool)
    (acc : SSEEventGenerator × List SSEEvent) (part : GeminiPart)
    (hok : sse_protocol_ok hs0 acc.2 = true)
    (hhs : hs_after hs0 acc.2 = acc.1.header_sent) :
    sse_protocol_ok hs0 (sse_process_part idOf acc part).2 = true
    ∧ hs_after hs0 (sse_process_part idOf acc part).2
        = (sse_process_part idOf acc part).1.header_sent := by
  match part with
  | .text t =>
    by_cases ht : trim_is_empty t
    · simp only [sse_process_part, ht, Bool.not_true, Bool.false_eq_true, if_false]
      exact ⟨hok, hhs⟩
    · by_cases hg : acc.1.header_sent
      · simp only [sse_process_part, ht, hg, Bool.not_true, Bool.not_false,
          Bool.false_eq_true, if_true, if_false]
        refine ⟨?_, ?_⟩
        · rw [List.append_nil, sse_protocol_ok_append, hok, hhs, hg]
          simp [sse_protocol_ok]
        · rw [List.append_nil, hs_after_append, hhs, hg]
          simp [hs_after, is_message_start]
      · simp only [sse_process_part, ht, hg, Bool.not_true, Bool.not_false,
          Bool.false_eq_true, if_true, if_false]
        have hg0 : acc.1.header_sent = false := by simpa using hg
        refine ⟨?_, ?_⟩
        · rw [List.append_assoc, sse_protocol_ok_append, hok, hhs, hg0]
          rw [sse_protocol_ok_append, sse_header_events_ok, hs_after_header_events]
          simp [sse_protocol_ok]
        · rw [List.append_assoc, hs_after_append, hs_after_append,
            hs_after_header_events]
          simp [hs_after, is_message_start]
  | .textWithThought t sig =>
    by_cases ht : trim_is_empty t
    · simp only [sse_process_part, ht, Bool.not_true, Bool.false_eq_true, if_false]
      exact ⟨hok, hhs⟩
    · by_cases hg : acc.1.header_sent
      · simp only [sse_process_part, ht, hg, Bool.not_true, Bool.not_false,
          Bool.false_eq_true, if_true, if_false]
        refine ⟨?_, ?_⟩
        · rw [List.append_nil, sse_protocol_ok_append, hok, hhs, hg]
          simp [sse_protocol_ok]
        · rw [List.append_nil, hs_after_append, hhs, hg]
          simp [hs_after, is_message_start]
      · simp only [sse_process_part, ht, hg, Bool.not_true, Bool.not_false,
          Bool.false_eq_true, if_true, if_false]
        have hg0 : acc.1.header_sent = false := by simpa using hg
        refine ⟨?_, ?_⟩
        · rw [List.append_assoc, sse_protocol_ok_append, hok, hhs, hg0]
          rw [sse_protocol_ok_append, sse_header_events_ok, hs_after_header_events]
          simp [sse_protocol_ok]
        · rw [List.append_assoc, hs_after_append, hs_after_append,
            hs_after_header_events]
          simp [hs_after, is_message_start]
  | .functionCall fc =>
    exact sse_emit_function_call_inv idOf acc.1 acc.2 fc none hs0 hok hhs
  | .functionCallWithThought fc sig =>
    exact sse_emit_function_call_inv idOf acc.1 acc.2 fc (some sig) hs0 hok hhs
  | .inlineData a b => exact ⟨hok, hhs⟩
  | .functionResponse r => exact ⟨hok, hhs⟩

theorem sse_parts_fold_inv (idOf : Nat → String) (parts : List GeminiPart) :
    ∀ (hs0 : Bool) (acc : SSEEventGenerator × List SSEEvent),
    sse_protocol_ok hs0 acc.2 = true →
    hs_after hs0 acc.2 = acc.1.header_sent →
    sse_protocol_ok hs0 (parts.foldl (sse_process_part idOf) acc).2 = true
    ∧ hs_after hs0 (parts.foldl (sse_process_part idOf) acc).2
        = (parts.foldl (sse_process_part idOf) acc).1.header_sent := by
  induction parts with
  | nil => intro hs0 acc hok hhs; exact ⟨hok, hhs⟩
  | cons p rest ih =>
    intro hs0 acc hok hhs
    simp only [List.foldl_cons]
    have h := sse_process_part_inv idOf hs0 acc p hok hhs
    exact ih hs0 (sse_process_part idOf acc p) h.1 h.2

theorem sse_first_header_inv (g : SSEEventGenerator) (chunk : GeminiStreamChunk) :
    sse_protocol_ok g.header_sent (sse_first_header g chunk).2 = true
    ∧ hs_after g.header_sent (sse_first_header g chunk).2
        = (sse_first_header g chunk).1.header_sent := by
  unfold sse_first_header
  split
  next h =>
    have hg : g.header_sent = false := by
      simp only [Bool.and_eq_true, Bool.not_eq_true'] at h
      exact h.1
    rw [hg]
    exact ⟨sse_header_events_ok g, hs_after_header_events false g⟩
  next => exact ⟨rfl, by simp [hs_after]⟩

theorem sse_finish_inv (chunk : GeminiStreamChunk) (candidate : Candidate)
    (acc : SSEEventGenerator × List SSEEvent) (hs0 : Bool)
    (hok : sse_protocol_ok hs0 acc.2 = true)
    (hhs : hs_after hs0 acc.2 = acc.1.header_sent) :
    sse_protocol_ok hs0 (sse_finish chunk candidate acc).2 = true
    ∧ hs_after hs0 (sse_finish chunk candidate acc).2
        = (sse_finish chunk candidate acc).1.header_sent := by
  cases hfr : candidate.finish_reason with
  | none => simp only [sse_finish, hfr]; exact ⟨hok, hhs⟩
  | some finish_reason =>
    simp only [sse_finish, hfr]
    by_cases hg : acc.1.header_sent
    · simp only [hg, Bool.not_true, Bool.false_eq_true, if_true, if_false]
      have hev2ok : sse_protocol_ok hs0 (acc.2 ++ []) = true := by
        rw [List.append_nil]; exact hok
      have hev2hs : hs_after hs0 (acc.2 ++ []) = true := by
        rw [List.append_nil, hhs, hg]
      by_cases hfc : has_function_calls chunk
      · simp only [hfc, Bool.not_true, Bool.false_eq_true, if_false]
        refine ⟨?_, ?_⟩
        · rw [sse_protocol_ok_append, hev2ok, hev2hs]
          simp [sse_protocol_ok]
        · rw [hs_after_append, hev2hs]
          simp [hs_after, is_message_start]
      · simp only [hfc, Bool.not_false, if_true]
        refine ⟨?_, ?_⟩
        · rw [sse_protocol_ok_append, sse_protocol_ok_append, hev2ok, hev2hs,
            hs_after_append, hev2hs]
          simp [sse_protocol_ok, hs_after, is_message_start]
        · rw [hs_after_append, hs_after_append, hev2hs]
          simp [hs_after, is_message_start]
    · have hg0 : acc.1.header_sent = false := by simpa using hg
      simp only [hg0, Bool.not_false, if_true]
      have hev2ok : sse_protocol_ok hs0 (acc.2 ++ sse_header_events acc.1) = true := by
        rw [sse_protocol_ok_append, hok, hhs, hg0]
        simp [sse_header_events_ok]
      have hev2hs : hs_after hs0 (acc.2 ++ sse_header_events acc.1) = true := by
        rw [hs_after_append, hs_after_header_events]
      by_cases hfc : has_function_calls chunk
      · simp only [hfc, Bool.not_true, Bool.false_eq_true, if_false]
        refine ⟨?_, ?_⟩
        · rw [sse_protocol_ok_append, hev2ok, hev2hs]
          simp [sse_protocol_ok]
        · rw [hs_after_append, hev2hs]
          simp [hs_after, is_message_start]
      · simp only [hfc, Bool.not_false, if_true]
        refine ⟨?_, ?_⟩
        · rw [sse_protocol_ok_append, sse_protocol_ok_append, hev2ok, hev2hs,
            hs_after_append, hev2hs]
          simp [sse_protocol_ok, hs_after, is_message_start]
        · rw [hs_after_append, hs_after_append, hev2hs]
          simp [hs_after, is_message_start]

theorem sse_usage_update_header (g : SSEEventGenerator) (chunk : GeminiStreamChunk) :
    (sse_usage_update g chunk).header_sent = g.header_sent := by
  unfold sse_usage_update
  cases chunk.usage_metadata <;> rfl

theorem generate_events_inv (idOf : Nat → String) (g : SSEEventGenerator)
    (chunk : GeminiStreamChunk) :
    sse_protocol_ok g.header_sent (generate_events idOf g chunk).2 = true
    ∧ hs_after g.header_sent (generate_events idOf g chunk).2
        = (generate_events idOf g chunk).1.header_sent := by
  unfold generate_events
  dsimp only
  have h1 := sse_first_header_inv (sse_usage_update g chunk) chunk
  rw [sse_usage_update_header] at h1
  cases hhd : chunk.candidates.head? with
  | none => exact h1
  | some candidate =>
    cases hc : candidate.content with
    | none =>
      dsimp only
      rw [hc]
      exact sse_finish_inv chunk candidate _ g.header_sent h1.1 h1.2
    | some content =>
      dsimp only
      rw [hc]
      have h2 := sse_parts_fold_inv idOf content.parts g.header_sent
        (sse_first_header (sse_usage_update g chunk) chunk) h1.1 h1.2
      exact sse_finish_inv chunk candidate _ g.header_sent h2.1 h2.2

theorem generate_events_all_inv (idOf : Nat → String)
    (chunks : List GeminiStreamChunk) :
    ∀ (g : SSEEventGenerator),
    sse_protocol_ok g.header_sent (generate_events_all idOf g chunks).2 = true
    ∧ hs_after g.header_sent (generate_events_all idOf g chunks).2
        = (generate_events_all idOf g chunks).1.header_sent := by
  induction chunks with
  | nil =>
    intro g
    refine ⟨rfl, ?_⟩
    simp [generate_events_all, hs_after]
  | cons ch rest ih =>
    intro g
    rw [generate_events_all_cons]
    dsimp only
    have h1 := generate_events_inv idOf g ch
    have h2 := ih (generate_events idOf g ch).1
    refine ⟨?_, ?_⟩
    · rw [sse_protocol_ok_append, h1.1, h1.2, h2.1]
      rfl
    · rw [hs_after_append, h1.2, h2.2]

theorem protocol_ok_start_count (evs : List SSEEvent) :
    ∀ (hs : Bool), sse_protocol_ok hs evs = true →
    evs.countP is_message_start ≤ (if hs then 0 else 1) := by
  induction evs with
  | nil => intro hs _; simp
  | cons e rest ih =>
    intro hs h
    match e with
    | .message_start m i o =>
      simp only [sse_protocol_ok, Bool.and_eq_true, Bool.not_eq_true'] at h
      obtain ⟨hhs, hrest⟩ := h
      subst hhs
      have hr := ih true hrest
      simp only [if_true, Nat.le_zero] at hr
      simp only [List.countP_cons, is_message_start, if_true, if_false, hr]
      simp
    | .message_stop =>
      simp only [sse_protocol_ok, Bool.and_eq_true] at h
      obtain ⟨hhs, hrest⟩ := h
      subst hhs
      have hr := ih true hrest
      simpa [List.countP_cons, is_message_start] using hr
    | .content_block_start_text i =>
      simp only [sse_protocol_ok] at h
      have hr := ih hs h
      simpa [List.countP_cons, is_message_start] using hr
    | .content_block_start_tool_use i id2 nm =>
      simp only [sse_protocol_ok] at h
      have hr := ih hs h
      simpa [List.countP_cons, is_message_start] using hr
    | .content_block_delta_text i t =>
      simp only [sse_protocol_ok] at h
      have hr := ih hs h
      simpa [List.countP_cons, is_message_start] using hr
    | .content_block_delta_input_json i f =>
      simp only [sse_protocol_ok] at h
      have hr := ih hs h
      simpa [List.countP_cons, is_message_start] using hr
    | .content_block_stop i =>
      simp only [sse_protocol_ok] at h
      have hr := ih hs h
      simpa [List.countP_cons, is_message_start] using hr
    | .message_delta sr o =>
      simp only [sse_protocol_ok] at h
      have hr := ih hs h
      simpa [List.countP_cons, is_message_start] using hr
    | .error_event t m =>
      simp only [sse_protocol_ok] at h
      have hr := ih hs h
      simpa [List.countP_cons, is_message_start] using hr

theorem protocol_ok_stop_take (evs : List SSEEvent) :
    ∀ (hs : Bool) (n : Nat), sse_protocol_ok hs evs = true →
    0 < (evs.take n).countP is_message_stop →
    hs = true ∨ 0 < (evs.take n).countP is_message_start := by
  induction evs with
  | nil => intro hs n _ hpos; simp at hpos
  | cons e rest ih =>
    intro hs n h hpos
    cases n with
    | zero => simp at hpos
    | succ m =>
      simp only [List.take_succ_cons] at hpos ⊢
      match e with
      | .message_start a b c =>
        right
        simp [List.countP_cons, is_message_start]
      | .message_stop =>
        left
        simp only [sse_protocol_ok, Bool.and_eq_true] at h
        exact h.1
      | .content_block_start_text i =>
        simp only [sse_protocol_ok] at h
        simp only [List.countP_cons, is_message_stop, if_false, Nat.add_zero,
          Bool.false_eq_true, reduceIte] at hpos
        rcases ih hs m h hpos with h1 | h1
        · exact Or.inl h1
        · right
          simpa [List.countP_cons, is_message_start] using h1
      | .content_block_start_tool_use i id2 nm =>
        simp only [sse_protocol_ok] at h
        simp only [List.countP_cons, is_message_stop, if_false, Nat.add_zero,
          Bool.false_eq_true, reduceIte] at hpos
        rcases ih hs m h hpos with h1 | h1
        · exact Or.inl h1
        · right
          simpa [List.countP_cons, is_message_start] using h1
      | .content_block_delta_text i t =>
        simp only [sse_protocol_ok] at h
        simp only [List.countP_cons, is_message_stop, if_false, Nat.add_zero,
          Bool.false_eq_true, reduceIte] at hpos
        rcases ih hs m h hpos with h1 | h1
        · exact Or.inl h1
        · right
          simpa [List.countP_cons, is_message_start] using h1
      | .content_block_delta_input_json i f =>
        simp only [sse_protocol_ok] at h
        simp only [List.countP_cons, is_message_stop, if_false, Nat.add_zero,
          Bool.false_eq_true, reduceIte] at hpos
        rcases ih hs m h hpos with h1 | h1
        · exact Or.inl h1
        · right
          simpa [List.countP_cons, is_message_start] using h1
      | .content_block_stop i =>
        simp only [sse_protocol_ok] at h
        simp only [List.countP_cons, is_message_stop, if_false, Nat.add_zero,
          Bool.false_eq_true, reduceIte] at hpos
        rcases ih hs m h hpos with h1 | h1
        · exact Or.inl h1
        · right
          simpa [List.countP_cons, is_message_start] using h1
      | .message_delta sr o =>
        simp only [sse_protocol_ok] at h
        simp only [List.countP_cons, is_message_stop, if_false, Nat.add_zero,
          Bool.false_eq_true, reduceIte] at hpos
        rcases ih hs m h hpos with h1 | h1
        · exact Or.inl h1
        · right
          simpa [List.countP_cons, is_message_start] using h1
      | .error_event t msg2 =>
        simp only [sse_protocol_ok] at h
        simp only [List.countP_cons, is_message_stop, if_false, Nat.add_zero,
          Bool.false_eq_true, reduceIte] at hpos
        rcases ih hs m h hpos with h1 | h1
        · exact Or.inl h1
        · right
          simpa [List.countP_cons, is_message_start] using h1

/-- A chunk whose only payload is a candidate `finish_reason = "STOP"`. -/
def c6_finish_chunk : GeminiStreamChunk :=
  ⟨[⟨none, some "STOP", none, none⟩], none, none⟩

/-- C6: over every finite stream of chunks fed to a single generator started
with `SSEEventGenerator::new`, the concatenated output contains
`message_start` at most once, and every prefix that contains a
`message_stop` also contains a `message_start` (so each `message_stop`
occurs after the `message_start`).  The claim\x27s further clause that
`message_stop` is emitted *at most once* is refuted separately: each
finish-reason chunk re-emits `message_delta`/`message_stop`. -/
theorem c6_message_lifecycle (idOf : Nat → String) (model : String)
    (chunks : List GeminiStreamChunk) :
    (generate_events_all idOf (SSEEventGenerator.new model) chunks).2.countP
        is_message_start ≤ 1
    ∧ ∀ n : Nat,
        0 < ((generate_events_all idOf (SSEEventGenerator.new model)
                chunks).2.take n).countP is_message_stop →
        0 < ((generate_events_all idOf (SSEEventGenerator.new model)
                chunks).2.take n).countP is_message_start := by
  have h := generate_events_all_inv idOf chunks (SSEEventGenerator.new model)
  have hok : sse_protocol_ok false
      (generate_events_all idOf (SSEEventGenerator.new model) chunks).2 = true := h.1
  constructor
  · have hc := protocol_ok_start_count _ false hok
    simpa using hc
  · intro n hpos
    rcases protocol_ok_stop_take _ false n hok hpos with h1 | h1
    · exact absurd h1 (by simp)
    · exact h1

/-- Witness for C6: on the single-finish-chunk stream the 5-event prefix
contains a `message_stop`, and the theorem instantiated there yields a
`message_start` in that same prefix. -/
theorem c6_message_lifecycle_witness :
    0 < ((generate_events_all (fun _ => "u") (SSEEventGenerator.new "m")
            [c6_finish_chunk]).2.take 5).countP is_message_start :=
  (c6_message_lifecycle (fun _ => "u") "m" [c6_finish_chunk]).2 5 (by decide)

/-- Counterexample to C6\x27s "at most once" clause for `message_stop`: two
consecutive finish chunks each emit a `message_stop`, so the concatenated
output contains it twice. -/
theorem c6_counterexample_double_message_stop :
    ((generate_events_all (fun _ => "u") (SSEEventGenerator.new "m")
        [c6_finish_chunk, c6_finish_chunk]).2.countP is_message_stop = 2)
    ∧ ¬ ((generate_events_all (fun _ => "u") (SSEEventGenerator.new "m")
        [c6_finish_chunk, c6_finish_chunk]).2.countP is_message_stop ≤ 1) := by
  decide

/-! ## Claim C4: tool-call chunk termination in the Open state -/

theorem sse_process_part_stops (idOf : Nat → String)
    (acc : SSEEventGenerator × List SSEEvent) (part : GeminiPart)
    (hg : acc.1.header_sent = true) :
    (sse_process_part idOf acc part).1.header_sent = true
    ∧ (sse_process_part idOf acc part).2.countP is_content_block_stop
        = acc.2.countP is_content_block_stop
          + (if is_function_call_part part then 1 else 0) := by
  match part with
  | .text t =>
    by_cases ht : trim_is_empty t
    · constructor
      · simpa [sse_process_part, ht] using hg
      · simp [sse_process_part, ht, is_function_call_part]
    · simp only [sse_process_part, ht, hg, Bool.not_true, Bool.not_false,
        Bool.false_eq_true, if_true, if_false]
      refine ⟨by trivial, ?_⟩
      simp [List.countP_append, is_content_block_stop, is_function_call_part]
  | .textWithThought t sig =>
    by_cases ht : trim_is_empty t
    · constructor
      · simpa [sse_process_part, ht] using hg
      · simp [sse_process_part, ht, is_function_call_part]
    · simp only [sse_process_part, ht, hg, Bool.not_true, Bool.not_false,
        Bool.false_eq_true, if_true, if_false]
      refine ⟨by trivial, ?_⟩
      simp [List.countP_append, is_content_block_stop, is_function_call_part]
  | .functionCall fc =>
    simp only [sse_process_part, sse_emit_function_call]
    refine ⟨hg, ?_⟩
    simp [List.countP_append, List.countP_cons, is_content_block_stop,
      is_function_call_part]
  | .functionCallWithThought fc sig =>
    simp only [sse_process_part, sse_emit_function_call]
    refine ⟨hg, ?_⟩
    simp [List.countP_append, List.countP_cons, is_content_block_stop,
      is_function_call_part]
  | .inlineData a b =>
    exact ⟨hg, by simp [sse_process_part, is_function_call_part]⟩
  | .functionResponse r =>
    exact ⟨hg, by simp [sse_process_part, is_function_call_part]⟩

theorem sse_parts_fold_stops (idOf : Nat → String) (parts : List GeminiPart) :
    ∀ (acc : SSEEventGenerator × List SSEEvent), acc.1.header_sent = true →
    (parts.foldl (sse_process_part idOf) acc).1.header_sent = true
    ∧ (parts.foldl (sse_process_part idOf) acc).2.countP is_content_block_stop
        = acc.2.countP is_content_block_stop
          + parts.countP is_function_call_part := by
  induction parts with
  | nil => intro acc hg; exact ⟨hg, by simp⟩
  | cons p rest ih =>
    intro acc hg
    simp only [List.foldl_cons]
    have h1 := sse_process_part_stops idOf acc p hg
    have h2 := ih (sse_process_part idOf acc p) h1.1
    refine ⟨h2.1, ?_⟩
    rw [h2.2, h1.2, List.countP_cons]
    by_cases hip : is_function_call_part p
    · simp only [hip, if_true, if_pos]
      omega
    · simp only [hip, if_false, if_neg, Bool.false_eq_true]
      omega

theorem determine_stop_reason_tool_use (chunk : GeminiStreamChunk) (fr : String)
    (hfc : has_function_calls chunk = true) :
    determine_stop_reason_with_context chunk fr = "tool_use" := by
  unfold determine_stop_reason_with_context
  rw [hfc]
  simp

/-- C4 (amended): a chunk processed in the Open state (`header_sent`) whose
first candidate has content and a `finish_reason`, and which contains at
least one *plain* `FunctionCall` part (the variant `has_function_calls`
recognises), ends with `message_delta(stop_reason = "tool_use")` followed by
`message_stop`, and the number of `content_block_stop` events it emits is
exactly the number of function-call parts of the first candidate — no extra
`content_block_stop(0)` is added.  The claim\x27s "with or without thought
signature" scoping fails: a chunk whose only function calls are
`FunctionCallWithThought` gets the extra stop (see the counterexample). -/
theorem c4_tool_use_termination (idOf : Nat → String) (g : SSEEventGenerator)
    (chunk : GeminiStreamChunk) (candidate : Candidate)
    (content : GeminiContent) (fr : String)
    ( hopen : g.header_sent = true)
    (hhd : chunk.candidates.head? = some candidate)
    (hc : candidate.content = some content)
    (hfr : candidate.finish_reason = some fr)
    (hfc : has_function_calls chunk = true) :
    (∃ body : List SSEEvent,
      (generate_events idOf g chunk).2
        = body ++ [.message_delta "tool_use"
                     (generate_events idOf g chunk).1.output_tokens,
                   .message_stop])
    ∧ (generate_events idOf g chunk).2.countP is_content_block_stop
        = count_function_call_parts chunk := by
  have hg1 : (sse_usage_update g chunk).header_sent = true := by
    rw [sse_usage_update_header, hopen]
  have hhp : sse_first_header (sse_usage_update g chunk) chunk
      = (sse_usage_update g chunk, []) := by
    unfold sse_first_header
    rw [hg1]
    simp
  unfold generate_events
  dsimp only
  rw [hhd]
  dsimp only
  rw [hc]
  dsimp only
  rw [hhp]
  have hfold := sse_parts_fold_stops idOf content.parts
    (sse_usage_update g chunk, []) hg1
  simp only [sse_finish, hfr]
  simp only [hfold.1, Bool.not_true, Bool.false_eq_true, if_false, hfc,
    List.append_nil]
  rw [determine_stop_reason_tool_use chunk fr hfc]
  refine ⟨⟨_, rfl⟩, ?_⟩
  rw [List.countP_append, hfold.2]
  simp only [List.countP_nil, Nat.zero_add]
  have hcnt : count_function_call_parts chunk
      = content.parts.countP is_function_call_part := by
    unfold count_function_call_parts
    rw [hhd]
    dsimp only
    rw [hc]
  rw [hcnt]
  simp [is_content_block_stop]

/-- A generator already in the Open state (headers sent). -/
def c4_open_gen : SSEEventGenerator :=
  { header_sent := true, input_tokens := 3, output_tokens := 7,
    model_name := "m", registered := [], content_block_index := 1,
    used_ids := 1 }

/-- Finish chunk with one plain `FunctionCall` part. -/
def c4_plain_chunk : GeminiStreamChunk :=
  ⟨[⟨some ⟨some "model", [GeminiPart.functionCall ⟨"f", Json.obj []⟩]⟩,
     some "STOP", none, none⟩], none, none⟩

/-- Finish chunk whose only function call carries a thought signature. -/
def c4_thought_chunk : GeminiStreamChunk :=
  ⟨[⟨some ⟨some "model", [GeminiPart.functionCallWithThought ⟨"f", Json.obj []⟩ "sig"]⟩,
     some "STOP", none, none⟩], none, none⟩

/-- Witness for C4: the theorem applied to a concrete Open-state generator
and a one-plain-function-call finish chunk. -/
theorem c4_tool_use_termination_witness :
    (∃ body : List SSEEvent,
      (generate_events (fun _ => "u") c4_open_gen c4_plain_chunk).2
        = body ++ [.message_delta "tool_use"
                     (generate_events (fun _ => "u") c4_open_gen c4_plain_chunk).1.output_tokens,
                   .message_stop])
    ∧ (generate_events (fun _ => "u") c4_open_gen c4_plain_chunk).2.countP
          is_content_block_stop
        = count_function_call_parts c4_plain_chunk :=
  c4_tool_use_termination (fun _ => "u") c4_open_gen c4_plain_chunk
    ⟨some ⟨some "model", [GeminiPart.functionCall ⟨"f", Json.obj []⟩]⟩,
     some "STOP", none, none⟩
    ⟨some "model", [GeminiPart.functionCall ⟨"f", Json.obj []⟩]⟩
    "STOP" rfl rfl rfl rfl (by decide)

/-- Counterexample to C4\x27s "with or without thought signature" scoping: a
finish chunk whose single function call is `FunctionCallWithThought` emits
two `content_block_stop` events (the per-tool stop plus the extra
`content_block_stop(0)` that `has_function_calls` fails to suppress), even
though it has exactly one function-call part. -/
theorem c4_counterexample_thought_signature_extra_stop :
    ((generate_events (fun _ => "u") c4_open_gen c4_thought_chunk).2.countP
        is_content_block_stop = 2)
    ∧ count_function_call_parts c4_thought_chunk = 1
    ∧ ¬ ((generate_events (fun _ => "u") c4_open_gen c4_thought_chunk).2.countP
          is_content_block_stop
        = count_function_call_parts c4_thought_chunk) := by
  decide
